import Mathlib

/-!
Verification development for the SogodWaterworks appointment-slot system
(`googleactionscriptcodeworking.gs`).

The script manages a per-date, per-category appointment-slot ledger stored in
spreadsheet sheets, reconciles calendar summary/appointment events against the
ledger and the form responses, and publishes bookable dates into form
dropdowns.

Shallow-embedding conventions used throughout:
* Calendar days are modelled as natural day indices; `formatYMD`/`parseDate`
  string round-tripping collapses to the index itself, and the JS
  `Date.getDay()` weekday is the index modulo 7 (0 = Sunday, 6 = Saturday),
  matching the weekend test `[0, 6].includes(date.getDay())`.
* Spreadsheet cells may hold non-numeric or unparseable junk; such cells are
  modelled as `Option` values (`none` = value that fails `safeParseDate_`
  or the `typeof x === 'number'` tests in the source).
* The script lock is a boolean input (`lockBusy`): `tryLock` fails exactly
  when it is `true`.
* Environment failures (spreadsheet/calendar service exceptions) have no
  shallow counterpart and are not modelled; every service call succeeds.
-/

namespace Sogod

/-- `SLOT_CAP = 20`: maximum appointments per day (source constant). -/
def SLOT_CAP : Int := 20

/-- `FUTURE_DAYS = 60`: seeding / validity window (source constant). -/
def FUTURE_DAYS : Nat := 60

/-- `MAX_ADVANCE_DAYS = 60`: dropdown advance window (source constant). -/
def MAX_ADVANCE_DAYS : Nat := 60

/-- `BUSINESS_DAYS_WINDOW = 60`: dropdown business-day budget (source constant). -/
def BUSINESS_DAYS_WINDOW : Nat := 60

/-- `CALENDAR_API_CALL_LIMIT_PER_RUN = 20` (source constant). -/
def CALENDAR_API_CALL_LIMIT_PER_RUN : Nat := 20

/-- `CALENDAR_API_CALL_LIMIT_PER_DAY = 2000` (source constant). -/
def CALENDAR_API_CALL_LIMIT_PER_DAY : Nat := 2000

/-!
## DateUtils

The source's `DateUtils` predicates take an arbitrary JavaScript value and
begin with the guard `if (!(date instanceof Date) || isNaN(date))`.  A value
is therefore one of: a proper `Date` (a day index here), a `Date` carrying
`NaN`, or a non-`Date` value.
-/

/-- A JavaScript value passed to a `DateUtils` predicate: a valid `Date`
(midnight of day index `day`), an `Invalid Date` (`isNaN(date)`), or a
non-`Date` value. -/
inductive JSDateVal where
  | valid (day : Nat)
  | nanDate
  | notDate
deriving DecidableEq, Repr

namespace DateUtils

/-- `DateUtils.isWeekend`: `[0, 6].includes(date.getDay())`, with the
invalid-input guard returning `true`. -/
def isWeekend (d : JSDateVal) : Bool :=
  match d with
  | .valid day => day % 7 == 0 || day % 7 == 6
  | _ => true

/-- `DateUtils.isBeforeToday`: compares start-of-day values against today,
with the invalid-input guard returning `true`. -/
def isBeforeToday (today : Nat) (d : JSDateVal) : Bool :=
  match d with
  | .valid day => day < today
  | _ => true

/-- `DateUtils.isBeyondFutureWindow`: `date > addDays(new Date(), futureDays)`;
a midnight date exceeds the (intra-day) future limit exactly when its day
index exceeds `today + futureDays`.  Invalid-input guard returns `true`. -/
def isBeyondFutureWindow (today : Nat) (futureDays : Nat) (d : JSDateVal) : Bool :=
  match d with
  | .valid day => today + futureDays < day
  | _ => true

/-- `DateUtils.isBusinessDay`: not a weekend and not a holiday, with the
invalid-input guard returning `false`.  The holiday lookup
`HolidayService.isHoliday(this.formatYMD(date))` is abstracted as the
predicate `holiday` on day indices. -/
def isBusinessDay (holiday : Nat → Bool) (d : JSDateVal) : Bool :=
  match d with
  | .valid day => !(day % 7 == 0 || day % 7 == 6) && !holiday day
  | _ => false

/-- `DateUtils.isValidBusinessDate`: invalid-input guard returns `false`;
otherwise the conjunction of the four negated sub-predicates, exactly as in
the source. -/
def isValidBusinessDate (today : Nat) (futureDays : Nat) (holiday : Nat → Bool)
    (d : JSDateVal) : Bool :=
  match d with
  | .valid _ =>
      !(isBeforeToday today d) && !(isWeekend d) &&
        !(isBeyondFutureWindow today futureDays d) &&
        !(holiday (match d with | .valid day => day | _ => 0))
  | _ => false

/-- Day-index form of `isValidBusinessDate` for a known-valid date (used by
the calendar-sync and seeding models below). -/
def validBizN (today : Nat) (futureDays : Nat) (holiday : Nat → Bool)
    (day : Nat) : Bool :=
  !(day < today) && !(day % 7 == 0 || day % 7 == 6) &&
    !(today + futureDays < day) && !holiday day

end DateUtils

end Sogod

namespace Sogod

/-!
## Claim C7 / C10 theorems live at the end of the file with the rest of the
claim theorems; definitions continue here.

## HolidayService

`isHoliday` receives a `yyyy-MM-dd` string; parsing either fails (`none`)
or produces a structured calendar date.  The remote holiday calendar is an
external collaborator: it is either reachable with a set of event days,
reachable but throwing on query, or unreachable.
-/

/-- A parsed calendar date (year, month 1-12, day 1-31). -/
structure Ymd where
  y : Nat
  m : Nat
  d : Nat
deriving DecidableEq, Repr

/-- State of the remote holiday calendar collaborator. -/
inductive RemoteCal where
  /-- reachable; `events d` = the remote calendar has an event on day `d`. -/
  | avail (events : Ymd → Bool)
  /-- reachable at initialisation but the day query throws. -/
  | availErr
  /-- unreachable (`initHolidayCalendar` failed: `_calendarAvailable = false`). -/
  | unavail

namespace HolidayService

/-- `HolidayService._manualHolidays`: the fixed month/day fallback table. -/
def manualHolidays : List (Nat × Nat) :=
  [(1, 1), (4, 9), (5, 1), (6, 12), (8, 21), (11, 1), (11, 2), (11, 30),
   (12, 8), (12, 25), (12, 30), (12, 31)]

/-- `this._manualHolidays.some(h => h.month === month && h.day === day)`. -/
def manualMatch (date : Ymd) : Bool :=
  manualHolidays.any fun h => h.1 == date.m && h.2 == date.d

/-- `HolidayService.isHoliday`.  Inputs:
* `cache`: the cached holiday-date set (`none` = cache miss / expired);
* `remote`: the remote holiday calendar collaborator;
* `date?`: the parse result of the incoming string (`none` covers the
  `!dateStr` guard and `DateUtils.parseDate` failure, both returning
  `false`).

Faithful to the source: a cache *hit on the date* returns `true`; otherwise,
if the calendar is available the function returns whether the remote
calendar has events that day (without consulting the fallback table); the
fixed table is consulted only when the calendar is unavailable or its query
throws. -/
def isHoliday (cache : Option (List Ymd)) (remote : RemoteCal)
    (date? : Option Ymd) : Bool :=
  match date? with
  | none => false
  | some date =>
      if (cache.getD []).contains date then true
      else
        match remote with
        | .avail events => events date
        | .availErr => manualMatch date
        | .unavail => manualMatch date

/-- `HolidayService.fetchRange` on a cache miss: unions remote-calendar event
days with fallback-table matches over the window.  The source's day-stepping
loop from `start` to `end` is modelled by the explicit list `days` of days in
the window. -/
def fetchRange (remote : RemoteCal) (days : List Ymd) : List Ymd :=
  let remoteDays :=
    match remote with
    | .avail events => days.filter events
    | _ => []
  remoteDays ++ days.filter fun d => manualMatch d && !(remoteDays.contains d)

end HolidayService

end Sogod

namespace Sogod

/-!
## Availability ledger

One sheet per category; a sheet is a list of data rows (the header row of the
source is implicit).  Cells hold `Option` values: `date = none` means
`safeParseDate_` fails on the cell, `booked/left = none` means the cell fails
the `typeof x === 'number'` test.
-/

/-- One availability-sheet data row `(Date, Booked, Slots Left)`. -/
structure Row where
  date : Option Nat
  booked : Option Int
  left : Option Int
deriving DecidableEq, Repr

/-- An availability sheet: its data rows, in sheet order. -/
abbrev Sheet := List Row

/-- The ledger-row invariant claimed by the spec:
`0 <= left <= SLOT_CAP` and `booked = SLOT_CAP - left`, on numeric rows. -/
def RowInv (r : Row) : Prop :=
  ∃ b l : Int, r.booked = some b ∧ r.left = some l ∧
    0 ≤ l ∧ l ≤ SLOT_CAP ∧ b = SLOT_CAP - l

instance (r : Row) : Decidable (RowInv r) := by
  unfold RowInv
  exact
    match hb : r.booked, hl : r.left with
    | some b, some l =>
        if h : 0 ≤ l ∧ l ≤ SLOT_CAP ∧ b = SLOT_CAP - l then
          .isTrue ⟨b, l, rfl, rfl, h.1, h.2.1, h.2.2⟩
        else
          .isFalse (by
            rintro ⟨b', l', hb', hl', h1, h2, h3⟩
            cases hb'; cases hl'
            exact h ⟨h1, h2, h3⟩)
    | some _, none => .isFalse (by rintro ⟨b', l', hb', hl', -⟩; cases hl')
    | none, _ => .isFalse (by rintro ⟨b', l', hb', hl', -⟩; cases hb')

/-- A default row value used with `List.getD` (indices are always in range
where it is used). -/
def dRow : Row := ⟨none, none, none⟩

/-- The row-location loop shared by the ledger operations: index of the first
row whose parsed `Date` cell (`safeParseDate_`) equals the requested date. -/
def findRowIdx (d : Nat) : List Row → Option Nat
  | [] => none
  | r :: rest =>
      if r.date == some d then some 0 else (findRowIdx d rest).map (· + 1)

namespace AvailabilityService

/-- Phase-1 result for one sheet of `decrementSlotAllCategories`: the sheet
(after lazy row creation), the located row index, and the `currentLeft`
reading. -/
structure SheetRead where
  sheet : Sheet
  targetRow : Nat
  currentLeft : Int
deriving Repr, DecidableEq

/-- Phase 1 for one sheet: locate the first row whose parsed date matches;
read `currentLeft` with the `typeof ... === 'number' ? v : SLOT_CAP`
default; if no row exists, append a fresh `(dateString, 0, SLOT_CAP)` row
(the write happens during the read phase, as in the source). -/
def phase1Sheet (d : Nat) (s : Sheet) : SheetRead :=
  match findRowIdx d s with
  | some i =>
      { sheet := s, targetRow := i,
        currentLeft := ((s.getD i dRow).left).getD SLOT_CAP }
  | none =>
      { sheet := s ++ [⟨some d, some 0, some SLOT_CAP⟩],
        targetRow := s.length, currentLeft := SLOT_CAP }

/-- Phase 2 for one sheet: re-read `Booked` live (`typeof ... ? v : 0`),
write `booked + 1` and `max 0 (currentLeft - 1)` into the target row, and
report the new `left`. -/
def phase2Sheet (sr : SheetRead) : Sheet × Int :=
  let r := sr.sheet.getD sr.targetRow dRow
  let newLeft := max 0 (sr.currentLeft - 1)
  (sr.sheet.set sr.targetRow
      { r with booked := some ((r.booked.getD 0) + 1), left := some newLeft },
    newLeft)

/-- `AvailabilityService.decrementSlotAllCategories`: holiday guard, lock
guard, then the two-phase cross-category decrement.  Returns the per-category
`newLeft` values on success; the thrown errors are modelled as
`Except.error`.  The post-state sheets are returned in both cases (phase-1
lazy row creation persists even when the overbooking guard aborts). -/
def decrementSlotAllCategories (holiday : Nat → Bool) (lockBusy : Bool)
    (d : Nat) (sheets : List Sheet) : Except String (List Int) × List Sheet :=
  if holiday d then
    (.error "Cannot book appointments on holidays", sheets)
  else if lockBusy then
    (.error "System busy, please try again", sheets)
  else
    let reads := sheets.map (phase1Sheet d)
    let hasOverbooking := reads.any fun sr => sr.currentLeft ≤ 0
    if hasOverbooking then
      (.error "No available slots", reads.map (·.sheet))
    else
      let written := reads.map phase2Sheet
      (.ok (written.map (·.2)), written.map (·.1))

end AvailabilityService

/-- `revertAvailabilityForDate_` on one category sheet: find the first row
whose parsed date matches; write `max 0 (booked - 1)` and
`min SLOT_CAP (left + 1)` (with the `typeof` defaults `0` / `SLOT_CAP`);
leave the sheet unchanged when the date is absent. -/
def revertAvailabilityForDate_ (d : Nat) (s : Sheet) : Sheet :=
  match findRowIdx d s with
  | some i =>
      let r := s.getD i dRow
      s.set i
        { r with booked := some (max 0 ((r.booked.getD 0) - 1)),
                 left := some (min SLOT_CAP ((r.left.getD SLOT_CAP) + 1)) }
  | none => s

/-- The stale-row deletion pass of `seedAvailabilityWindow` for one sheet:
keep a row when its date cell is unparseable or the parsed date lies within
`[start, start + days]` (the source compares `yyyy-MM-dd` strings, whose
lexicographic order is day order). -/
def seedKeep (start days : Nat) (s : Sheet) : Sheet :=
  s.filter fun r =>
    match r.date with
    | none => true
    | some dd => !(decide (dd < start) || decide (start + days < dd))

/-- The missing-row generation pass of `seedAvailabilityWindow` for one
sheet: for every non-weekend, non-holiday day of `[start, start + days]`
lacking a row, append `(date, 0, SLOT_CAP)`. -/
def seedMissing (start days : Nat) (holiday : Nat → Bool) (s : Sheet) :
    List Row :=
  ((List.range (days + 1)).map (start + ·)).filterMap fun day =>
    if !(day % 7 == 0 || day % 7 == 6) && !holiday day
        && !(s.any fun r => r.date == some day) then
      some ⟨some day, some 0, some SLOT_CAP⟩
    else none

/-- `AvailabilityService.seedAvailabilityWindow` on one category sheet:
delete stale rows, then append the missing in-window business-day rows. -/
def seedAvailabilityWindow (start days : Nat) (holiday : Nat → Bool)
    (s : Sheet) : Sheet :=
  let kept := seedKeep start days s
  kept ++ seedMissing start days holiday kept

/-- First-occurrence deduplication (JavaScript object keys / `Set` iterate in
insertion order, which for a tally built by one pass is first-occurrence
order). -/
def firstOccurrencesAux (seen : List Nat) : List Nat → List Nat
  | [] => []
  | d :: rest =>
      if seen.contains d then firstOccurrencesAux seen rest
      else d :: firstOccurrencesAux (d :: seen) rest

/-- Distinct dates in first-occurrence order (JavaScript object keys iterate
in insertion order, which for a tally built in one pass over the response
dates is first-occurrence order). -/
def firstOccurrences (l : List Nat) : List Nat :=
  firstOccurrencesAux [] l

/-- `rebuildSlotCounters` for one category: tally the response dates and
write one `(date, booked, SLOT_CAP - booked)` row per distinct date.  The
subtraction is *not* clamped in the source. -/
def rebuildSlotCounters (dates : List Nat) : Sheet :=
  (firstOccurrences dates).map fun d =>
    ⟨some d, some (dates.count d : Int), some (SLOT_CAP - (dates.count d : Int))⟩

end Sogod

namespace Sogod

/-!
## Form dropdown choice lists

Choice labels are strings `"{yyyy-MM-dd} {EEE} ({n} slot(s) left)"`.  The
date string is rendered here as the day index in fixed-width decimal, which
keeps `String.startsWith` on a date prefix unambiguous, exactly as the
fixed-width `yyyy-MM-dd` format does; the locale weekday text
`Utilities.formatDate(date, TZ, 'EEE')` is supplied by the environment
function `wd`.
-/

/-- Fixed-width decimal rendering of a day index, standing in for the
`yyyy-MM-dd` date string. -/
def ymdString (d : Nat) : String :=
  let s := toString d
  String.mk (List.replicate (8 - s.length) '0') ++ s

/-- Character-level prefix test, embedding JavaScript
`String.prototype.startsWith`. -/
def listStartsWith : List Char → List Char → Bool
  | _, [] => true
  | [], _ :: _ => false
  | a :: s, b :: p => a == b && listStartsWith s p

/-- `choice.startsWith(dateString)` on whole strings. -/
def strStartsWith (s pre : String) : Bool :=
  listStartsWith s.toList pre.toList

/-- A dropdown choice label
`` `${dateString} ${weekday} (${left} slot${left === 1 ? '' : 's'} left)` ``. -/
def choiceLabel (wd : Nat → String) (d : Nat) (left : Int) : String :=
  ymdString d ++ " " ++ wd d ++ " (" ++ toString left ++ " slot" ++
    (if left = 1 then "" else "s") ++ " left)"

/-- One `items` entry of `buildBusinessDays`. -/
structure BBItem where
  date : Nat
  label : String
  left : Int
deriving DecidableEq, Repr

/-- The scanning loop of `buildBusinessDays`: starting at `today + off` with
`found` business days counted, collect items for non-weekend, non-holiday
days with `left = SLOT_CAP - counts[key] > 0`, until `BUSINESS_DAYS_WINDOW`
business days have been seen.  The `continue` on the holiday branch skips the
`dayOffset > 100` safety break, so the source loop is not structurally
bounded; `fuel` makes the model total (every property proved below holds for
every fuel). -/
def buildBusinessDaysGo (wd : Nat → String) (holiday : Nat → Bool)
    (counts : Nat → Nat) (today : Nat) :
    Nat → Nat → Nat → List BBItem
  | _, _, 0 => []
  | off, found, fuel + 1 =>
      if found < BUSINESS_DAYS_WINDOW then
        let day := today + off
        if !(day % 7 == 0 || day % 7 == 6) then
          if holiday day then
            buildBusinessDaysGo wd holiday counts today (off + 1) found fuel
          else
            let used : Int := (counts day : Int)
            let left := SLOT_CAP - used
            let rest :=
              if off + 1 > 100 then []
              else buildBusinessDaysGo wd holiday counts today (off + 1)
                (found + 1) fuel
            if left > 0 then
              ⟨day, choiceLabel wd day left, left⟩ :: rest
            else rest
        else
          if off + 1 > 100 then []
          else buildBusinessDaysGo wd holiday counts today (off + 1) found fuel
      else []

/-- `buildBusinessDays`: scan, sort the items by date, and return the
available dates and the choice labels. -/
def buildBusinessDays (wd : Nat → String) (holiday : Nat → Bool)
    (counts : Nat → Nat) (today : Nat) : List Nat × List String :=
  let items := (buildBusinessDaysGo wd holiday counts today 0 0 1000).mergeSort
    (fun a b => a.date ≤ b.date)
  (items.map (·.date), items.map (·.label))

/-- The date key of a choice label: the text before the first space
(`label.split(' ')[0]`). -/
def labelDateKey (s : String) : String :=
  String.mk (s.toList.takeWhile (· ≠ ' '))

/-- `updateFormDateDropdown_`: read the availability rows, keep in-window
non-holiday weekday rows with `slotsLeft > 0` (reading `Slots Left` with the
`typeof` default `SLOT_CAP`), build their labels, sort by the date prefix,
and update the form only when at least one choice remains (`none` = the
empty-choice skip). -/
def updateFormDateDropdown_ (wd : Nat → String) (holiday : Nat → Bool)
    (today : Nat) (rows : Sheet) : Option (List String) :=
  let choices := rows.filterMap fun r =>
    match r.date with
    | none => none
    | some day =>
        if day < today || today + MAX_ADVANCE_DAYS < day then none
        else if holiday day then none
        else if day % 7 == 0 || day % 7 == 6 then none
        else
          let slotsLeft := r.left.getD SLOT_CAP
          if slotsLeft > 0 then some (choiceLabel wd day slotsLeft) else none
  let sorted := choices.mergeSort fun a b => labelDateKey a ≤ labelDateKey b
  if sorted.length == 0 then none else some sorted

/-- `updateFormDropdownForDate_`: rewrite the choice matching the booked
date with the new `slotsLeft` label when `slotsLeft > 0`, and drop it
(fully booked) otherwise; all other choices pass through. -/
def updateFormDropdownForDate_ (wd : Nat → String) (d : Nat)
    (slotsLeft : Int) (choices : List String) : List String :=
  choices.filterMap fun c =>
    if strStartsWith c (ymdString d) then
      if slotsLeft > 0 then some (choiceLabel wd d slotsLeft) else none
    else some c

end Sogod

namespace Sogod

/-!
## Calendar events, titles, quota, and the sync service

Event titles are strings in the source, built by fixed interpolation
patterns and classified by tag substrings (`[DAILY_SUMMARY]`,
`[APPOINTMENT]`).  They are embedded here as an inductive of the grammatical
forms the script produces, plus `other` for foreign titles carrying just
their tag membership; the requester identity fields are taken not to embed
the literal tag strings (the interpolation patterns are injective and
tag-disjoint for such values).

`CAL.getEvents(dateObj, dateObj, { search: q })` appears in two shapes:
queried with a full title it is, per the source's own comments, an
"exact title match" existence check on that day (`searchByTitle`); queried
with a bare tag it matches every event of that day whose title carries the
tag (a tag-membership filter).
-/

/-- An event title. -/
inductive Title where
  /-- `` `${minLeft} slots left ${FULL_SUMMARY_TAG}` `` (CalendarSyncService
  summary format). -/
  | summary (minLeft : Int)
  /-- `` `${leftCount} slots left (${SLOT_CAP} total) ${FULL_SUMMARY_TAG}` ``
  (`upsertDailySummaryEvent` summary format). -/
  | summaryFull (left : Int)
  /-- `` `${sheetName}:${lastName}, ${firstName} ${purok}, ${barangay} ${APPT_EVENT_TAG}` ``. -/
  | appt (cat lastName firstName purok barangay : String)
  /-- any other title, by its tag membership and an identity index. -/
  | other (hasSum hasAppt : Bool) (n : Nat)
deriving DecidableEq, Repr

/-- `title.includes(FULL_SUMMARY_TAG)`. -/
def Title.hasSumTag : Title → Bool
  | .summary _ => true
  | .summaryFull _ => true
  | .appt .. => false
  | .other hs _ _ => hs

/-- `title.includes(APPT_EVENT_TAG)`. -/
def Title.hasApptTag : Title → Bool
  | .appt .. => true
  | .summary _ => false
  | .summaryFull _ => false
  | .other _ ha _ => ha

/-- The identity tuple encoded in an appointment title. -/
def Title.identOf : Title → Option (String × String × String × String)
  | .appt _ ln fn p b => some (ln, fn, p, b)
  | _ => none

/-- A calendar event: `id` models JavaScript object identity (deletes and
title updates address events through it), `date` the all-day event's day. -/
structure Event where
  id : Nat
  date : Nat
  title : Title
deriving DecidableEq, Repr

/-- Mutable run state: the calendar, the next fresh event id, the
`CalendarQuotaManager` counters (`calendarCallsThisRun` / `calendarCallsToday`),
the per-run `results` counters, and the `blocked` instrumentation flag,
which records that some intended mutation was skipped because `canCall`
returned `false`. -/
structure CalSt where
  cal : List Event
  nextId : Nat
  runCalls : Nat
  dayCalls : Nat
  created : Nat
  updated : Nat
  deleted : Nat
  blocked : Bool
deriving DecidableEq, Repr

/-- `CalendarQuotaManager.canCall(1)`. -/
def canCall (st : CalSt) : Bool :=
  decide (st.runCalls + 1 ≤ CALENDAR_API_CALL_LIMIT_PER_RUN) &&
    decide (st.dayCalls + 1 ≤ CALENDAR_API_CALL_LIMIT_PER_DAY)

/-- A quota-gated `createAllDayEvent` (the `safeCreateEvent` pattern). -/
def safeCreateEvent (d : Nat) (t : Title) (st : CalSt) : CalSt :=
  if canCall st then
    { st with cal := st.cal ++ [⟨st.nextId, d, t⟩], nextId := st.nextId + 1,
              runCalls := st.runCalls + 1, dayCalls := st.dayCalls + 1,
              created := st.created + 1 }
  else { st with blocked := true }

/-- A quota-gated `deleteEvent` (the `safeDeleteEvent` pattern). -/
def safeDeleteEvent (e : Event) (st : CalSt) : CalSt :=
  if canCall st then
    { st with cal := st.cal.filter (fun x => !(x.id == e.id)),
              runCalls := st.runCalls + 1, dayCalls := st.dayCalls + 1,
              deleted := st.deleted + 1 }
  else { st with blocked := true }

/-- A quota-gated `setTitle` (the `safeUpdateTitle` pattern). -/
def safeUpdateTitle (e : Event) (t : Title) (st : CalSt) : CalSt :=
  if canCall st then
    { st with cal := st.cal.map (fun x => if x.id == e.id then
                { x with title := t } else x),
              runCalls := st.runCalls + 1, dayCalls := st.dayCalls + 1,
              updated := st.updated + 1 }
  else { st with blocked := true }

/-- `row[AVAIL_LEFT_COL - 1] || SLOT_CAP`: JavaScript `||` treats the numeric
cell `0` as falsy, so a fully-booked row reads back as `SLOT_CAP`. -/
def jsOrCap (c : Option Int) : Int :=
  match c with
  | none => SLOT_CAP
  | some v => if v = 0 then SLOT_CAP else v

/-- `CalendarSyncService.getAvailabilityForDate`: the minimum of the
`Slots Left` readings of every row matching the date across every category
sheet, starting from `SLOT_CAP`. -/
def getAvailabilityForDate (sheets : List Sheet) (d : Nat) : Int :=
  sheets.foldl
    (fun m sh => sh.foldl
      (fun m' r => if r.date == some d then min m' (jsOrCap r.left) else m') m)
    SLOT_CAP

/-- A form-response row, restricted to the columns the sync reads. -/
structure RespRow where
  lastName : String
  firstName : String
  purok : String
  barangay : String
  date : Nat
  ts : Nat
deriving DecidableEq, Repr

/-- One registry entry's response sheet: the category (`sheetName`) and its
rows. -/
structure RespSheet where
  name : String
  rows : List RespRow
deriving DecidableEq, Repr

/-- The dedup key `` `${lastName}-${firstName}-${purok}-${barangay}` ``. -/
def identKey (r : RespRow) : String × String × String × String :=
  (r.lastName, r.firstName, r.purok, r.barangay)

/-- The appointment title built from a response row. -/
def apptTitle (catName : String) (r : RespRow) : Title :=
  .appt catName r.lastName r.firstName r.purok r.barangay

/-- The per-sheet dedup scan of `getExpectedAppointmentsForDate`: walk the
timestamp-sorted rows, adding a title for each identity not yet seen.
Returns the titles added and the grown seen-set. -/
def dedupScan (catName : String) (seen : List (String × String × String × String)) :
    List RespRow → List Title × List (String × String × String × String)
  | [] => ([], seen)
  | r :: rest =>
      if seen.contains (identKey r) then dedupScan catName seen rest
      else
        let p := dedupScan catName (identKey r :: seen) rest
        (apptTitle catName r :: p.1, p.2)

/-- The registry fold of `getExpectedAppointmentsForDate`: per sheet, filter
the rows to the date, sort them by `Timestamp` descending, and dedup against
the seen-set shared across sheets.  JavaScript `Array.prototype.sort` is
stable, so it is modelled by a stable sort (`insertionSort`; any stable sort
under the same total comparator yields the same list). -/
def getExpectedGo (d : Nat) (seen : List (String × String × String × String)) :
    List RespSheet → List Title
  | [] => []
  | sh :: rest =>
      let sorted := (sh.rows.filter (fun r => r.date == d)).insertionSort
        (fun a b => b.ts ≤ a.ts)
      let p := dedupScan sh.name seen sorted
      p.1 ++ getExpectedGo d p.2 rest

/-- `CalendarSyncService.getExpectedAppointmentsForDate`: the expected
appointment titles for a date, in `Set` insertion order. -/
def getExpectedAppointmentsForDate (sheets : List RespSheet) (d : Nat) :
    List Title :=
  getExpectedGo d [] sheets

/-- The first registry sheet holding a submission for the given identity and
date (what actually decides the surviving title's category). -/
def firstCatWith (sheets : List RespSheet) (d : Nat)
    (key : String × String × String × String) : Option String :=
  (sheets.find? fun sh =>
    sh.rows.any fun r => r.date == d && identKey r == key).map (·.name)

/-- First-occurrence title deduplication (`new Set(...)` iteration order). -/
def dedupTitlesAux (seen : List Title) : List Title → List Title
  | [] => []
  | t :: rest =>
      if seen.contains t then dedupTitlesAux seen rest
      else t :: dedupTitlesAux (t :: seen) rest

/-- `new Set(existingEvents.map(e => e.getTitle()))` as an insertion-ordered
list. -/
def dedupTitles (l : List Title) : List Title := dedupTitlesAux [] l

/-- `CAL.getEvents(dateObj, dateObj, { search: title })` with a full title:
the day's events with exactly that title (the source comments this call as
an exact-title existence check). -/
def searchByTitle (cal : List Event) (d : Nat) (t : Title) : List Event :=
  cal.filter (fun e => e.date == d && e.title == t)

/-- The per-date summary-event snapshot of `syncDateRange`: the grouping
loop pushes, in order, the summary-tagged events of the range and then the
appointment-tagged events of the range whose title also carries the summary
tag (an event carrying both tags is pushed twice, as in the source). -/
def sumSnap (cal : List Event) (s e d : Nat) : List Event :=
  (cal.filter fun ev =>
      decide (s ≤ ev.date) && decide (ev.date ≤ e) && ev.title.hasSumTag).filter
    (fun ev => ev.date == d)
  ++ (cal.filter fun ev =>
      decide (s ≤ ev.date) && decide (ev.date ≤ e) && ev.title.hasApptTag).filter
    (fun ev => ev.date == d && ev.title.hasSumTag)

/-- The per-date appointment-event snapshot of `syncDateRange`. -/
def apptSnap (cal : List Event) (s e d : Nat) : List Event :=
  (cal.filter fun ev =>
      decide (s ≤ ev.date) && decide (ev.date ≤ e) && ev.title.hasApptTag).filter
    (fun ev => ev.date == d && !ev.title.hasSumTag)

/-- `CalendarSyncService.syncSummaryEvents` for one date: guard on
`isValidBusinessDate`, compute the expected title from `minLeft`, check for
an exact-title match on the live calendar, then create / update / dedup
exactly as the source's three branches do. -/
def syncSummaryEvents (today fd : Nat) (holiday : Nat → Bool)
    (sheets : List Sheet) (d : Nat) (snap : List Event) (st : CalSt) : CalSt :=
  if !(DateUtils.validBizN today fd holiday d) then st
  else
    let expT := Title.summary (getAvailabilityForDate sheets d)
    let ewt := searchByTitle st.cal d expT
    let hEM := !ewt.isEmpty
    if snap.isEmpty && !hEM then
      safeCreateEvent d expT st
    else if snap.length == 1 && !hEM then
      match snap with
      | [] => st
      | e :: _ => if e.title == expT then st else safeUpdateTitle e expT st
    else if decide (snap.length > 1) || hEM then
      let keep := if hEM then ewt else snap.take 1
      let st1 := (snap.filter fun e => !(keep.any fun k => k.id == e.id)).foldl
        (fun s' e => safeDeleteEvent e s') st
      match keep with
      | [] => st1
      | k :: _ => if k.title == expT then st1 else safeUpdateTitle k expT st1
    else st

/-- `CalendarSyncService.syncAppointmentEvents` for one date: diff the
expected titles against the snapshot's titles; create each missing title
(guarded by the pre-create exact-title existence check on the live
calendar), delete every event carrying an extra title. -/
def syncAppointmentEvents (responses : List RespSheet) (d : Nat)
    (snap : List Event) (st : CalSt) : CalSt :=
  let expected := getExpectedAppointmentsForDate responses d
  let existingTitles := dedupTitles (snap.map (·.title))
  let missing := expected.filter fun t => !(existingTitles.contains t)
  let extra := existingTitles.filter fun t => !(expected.contains t)
  let st1 := missing.foldl
    (fun s' t =>
      if (searchByTitle s'.cal d t).isEmpty then safeCreateEvent d t s' else s')
    st
  extra.foldl
    (fun s' t =>
      (snap.filter fun e => e.title == t).foldl
        (fun s'' e => safeDeleteEvent e s'') s')
    st1

/-- One iteration of the `syncDateRange` date loop: skip
past/weekend/beyond-window dates, look up the precomputed snapshots for the
date, skip holidays, then sync summaries and appointments. -/
def syncDateStep (today fd : Nat) (holiday : Nat → Bool) (sheets : List Sheet)
    (responses : List RespSheet) (cal0 : List Event) (s e : Nat)
    (st : CalSt) (d : Nat) : CalSt :=
  if DateUtils.isBeforeToday today (.valid d) || DateUtils.isWeekend (.valid d)
      || DateUtils.isBeyondFutureWindow today fd (.valid d) then st
  else if holiday d then st
  else
    syncAppointmentEvents responses d (apptSnap cal0 s e d)
      (syncSummaryEvents today fd holiday sheets d (sumSnap cal0 s e d) st)

/-- The days of `[s, e]`, in loop order. -/
def rangeDates (s e : Nat) : List Nat :=
  (List.range (e + 1 - s)).map (s + ·)

/-- `CalendarSyncService.syncDateRange`: reset the per-run quota counter and
the run's `results`, snapshot and group the range's events by date from the
calendar as it stands at run start, then process each date of `[s, e]`. -/
def syncDateRange (today fd : Nat) (holiday : Nat → Bool) (sheets : List Sheet)
    (responses : List RespSheet) (s e : Nat) (st0 : CalSt) : CalSt :=
  let st := { st0 with runCalls := 0, created := 0, updated := 0, deleted := 0,
                       blocked := false }
  (rangeDates s e).foldl
    (syncDateStep today fd holiday sheets responses st.cal s e) st

/-- `upsertDailySummaryEvent`: guard on `isValidBusinessDate`, then reject
non-numeric `bookedCount`/`leftCount` (`typeof x !== 'number'`), take the
lock, fetch the day's summary-tagged events, delete duplicates beyond the
first, and create or retitle the survivor against the
`summaryFull` expected title (skipping the write when the title already
matches). -/
def upsertDailySummaryEvent (today fd : Nat) (holiday : Nat → Bool)
    (d : Nat) (bookedCount leftCount : Option Int) (lockBusy : Bool)
    (st : CalSt) : CalSt :=
  if !(DateUtils.validBizN today fd holiday d) then st
  else
    match bookedCount, leftCount with
    | some _, some lc =>
        if lockBusy then st
        else
          let events := st.cal.filter fun ev =>
            ev.date == d && ev.title.hasSumTag
          let st1 := (events.drop 1).foldl (fun s' ev => safeDeleteEvent ev s') st
          let title := Title.summaryFull lc
          match events with
          | [] => safeCreateEvent d title st1
          | ev :: _ =>
              if ev.title == title then st1 else safeUpdateTitle ev title st1
    | _, _ => st

/-- One date of `validateSummaryWindow`: on a valid business date with zero
summaries, call `upsertDailySummaryEvent(dateObj, undefined, minLeft, ...)`
(`bookedCount` is passed as `undefined`, i.e. `none`); with more than one,
delete the duplicates; on an invalid date delete every summary. -/
def validateSummaryWindowStep (today fd : Nat) (holiday : Nat → Bool)
    (sheets : List Sheet) (lockBusy : Bool) (st : CalSt) (d : Nat) : CalSt :=
  let existing := st.cal.filter fun ev => ev.date == d && ev.title.hasSumTag
  if DateUtils.validBizN today fd holiday d then
    match existing with
    | [] =>
        upsertDailySummaryEvent today fd holiday d none
          (some (getAvailabilityForDate sheets d)) lockBusy st
    | _ :: dups => dups.foldl (fun s' ev => safeDeleteEvent ev s') st
  else
    existing.foldl (fun s' ev => safeDeleteEvent ev s') st

/-- `validateSummaryWindow`: walk every date of `[today, today + FUTURE_DAYS]`
(weekends included) and validate each. -/
def validateSummaryWindow (today fd : Nat) (holiday : Nat → Bool)
    (sheets : List Sheet) (lockBusy : Bool) (st : CalSt) : CalSt :=
  (rangeDates today (today + fd)).foldl
    (validateSummaryWindowStep today fd holiday sheets lockBusy) st

/-!
Specification predicates for the sync idempotence analysis.
-/

/-- Well-formed event identities: ids are pairwise distinct and below the
next fresh id. -/
def IdsOk (st : CalSt) : Prop :=
  (st.cal.map (·.id)).Nodup ∧ ∀ ev ∈ st.cal, ev.id < st.nextId

/-- The summary-side fixed point at date `d`: on a valid business date an
exact-title summary event exists and every snapshot summary event is one of
the exact-title events.  Processing such a date performs no summary
mutation. -/
def SummarySettled (today fd : Nat) (holiday : Nat → Bool)
    (sheets : List Sheet) (s e d : Nat) (cal : List Event) : Prop :=
  DateUtils.validBizN today fd holiday d = true →
    (searchByTitle cal d (.summary (getAvailabilityForDate sheets d)) ≠ [] ∧
      ∀ ev ∈ sumSnap cal s e d,
        ∃ k ∈ searchByTitle cal d (.summary (getAvailabilityForDate sheets d)),
          k.id = ev.id)

/-- The appointment-side fixed point at date `d`: the expected-title diff
against the snapshot is empty in both directions. -/
def ApptSettled (responses : List RespSheet) (s e d : Nat)
    (cal : List Event) : Prop :=
  ((getExpectedAppointmentsForDate responses d).filter fun t =>
      !((dedupTitles ((apptSnap cal s e d).map (·.title))).contains t)) = []
  ∧ ((dedupTitles ((apptSnap cal s e d).map (·.title))).filter fun t =>
      !((getExpectedAppointmentsForDate responses d).contains t)) = []

end Sogod

namespace Sogod

/-!
## Claim theorems (dates / ledger half)
-/

/-- Claim C7: for every valid `Date` `d`, `isValidBusinessDate(d)` equals the
conjunction `!isBeforeToday(d) && !isWeekend(d) && !isBeyondFutureWindow(d)
&& !isHoliday(d)`. -/
theorem C7_isValidBusinessDate_conjunction
    (today futureDays : Nat) (holiday : Nat → Bool) (day : Nat) :
    DateUtils.isValidBusinessDate today futureDays holiday (.valid day)
      = (!(DateUtils.isBeforeToday today (.valid day))
          && !(DateUtils.isWeekend (.valid day))
          && !(DateUtils.isBeyondFutureWindow today futureDays (.valid day))
          && !(holiday day)) := by
  rfl

/-- Claim C10: on inputs that are not valid `Date`s (a non-`Date` value, or a
`Date` holding `NaN`), all the date predicates are total and return their
guard values: `isValidBusinessDate` and `isBusinessDay` return `false`;
`isWeekend`, `isBeforeToday` and `isBeyondFutureWindow` return `true`. -/
theorem C10_invalid_date_totality
    (today futureDays : Nat) (holiday : Nat → Bool) :
    (∀ v : JSDateVal, v = .nanDate ∨ v = .notDate →
      DateUtils.isValidBusinessDate today futureDays holiday v = false ∧
      DateUtils.isBusinessDay holiday v = false ∧
      DateUtils.isWeekend v = true ∧
      DateUtils.isBeforeToday today v = true ∧
      DateUtils.isBeyondFutureWindow today futureDays v = true) := by
  rintro v (rfl | rfl) <;> exact ⟨rfl, rfl, rfl, rfl, rfl⟩

/-- Witness for C10 at the concrete invalid input `notDate` (today = 3,
window = 60, no holidays). -/
theorem C10_invalid_date_totality_witness :
    DateUtils.isValidBusinessDate 3 60 (fun _ => false) .notDate = false ∧
      DateUtils.isBusinessDay (fun _ => false) .notDate = false ∧
      DateUtils.isWeekend .notDate = true ∧
      DateUtils.isBeforeToday 3 .notDate = true ∧
      DateUtils.isBeyondFutureWindow 3 60 .notDate = true :=
  C10_invalid_date_totality 3 60 (fun _ => false) .notDate (Or.inr rfl)

/-! ### Ledger lemmas -/

theorem findRowIdx_some_lt {d : Nat} {s : List Row} {i : Nat}
    (h : findRowIdx d s = some i) : i < s.length := by
  induction s generalizing i with
  | nil => simp [findRowIdx] at h
  | cons r rest ih =>
      by_cases hr : r.date == some d
      · simp only [findRowIdx, if_pos hr, Option.some.injEq] at h
        subst h
        simp
      · simp only [findRowIdx, if_neg hr, Option.map_eq_some'] at h
        obtain ⟨j, hj, rfl⟩ := h
        have := ih hj
        simp only [List.length_cons]
        omega

theorem findRowIdx_some_date {d : Nat} {s : List Row} {i : Nat}
    (h : findRowIdx d s = some i) : (s.getD i dRow).date = some d := by
  induction s generalizing i with
  | nil => simp [findRowIdx] at h
  | cons r rest ih =>
      by_cases hr : r.date == some d
      · simp only [findRowIdx, if_pos hr, Option.some.injEq] at h
        subst h
        simpa using beq_iff_eq.mp hr
      · simp only [findRowIdx, if_neg hr, Option.map_eq_some'] at h
        obtain ⟨j, hj, rfl⟩ := h
        simpa using ih hj

theorem findRowIdx_none_forall {d : Nat} {s : List Row}
    (h : findRowIdx d s = none) : ∀ r ∈ s, ¬(r.date = some d) := by
  induction s with
  | nil => intro r hr; cases hr
  | cons r rest ih =>
      by_cases hr : r.date == some d
      · simp [findRowIdx, hr] at h
      · simp only [findRowIdx, if_neg hr, Option.map_eq_none'] at h
        intro r' hr'
        rcases List.mem_cons.mp hr' with rfl | hmem
        · exact fun he => hr (beq_iff_eq.mpr he)
        · exact ih h r' hmem

theorem getD_mem_of_lt {s : List Row} {i : Nat} (h : i < s.length) :
    s.getD i dRow ∈ s := by
  rw [List.getD_eq_getElem s dRow h]
  exact List.getElem_mem h

theorem getD_append_self (s : List Row) (x : Row) :
    (s ++ [x]).getD s.length dRow = x := by
  induction s with
  | nil => rfl
  | cons a t ih =>
      simp only [List.cons_append, List.length_cons, List.getD_cons_succ]
      exact ih

theorem two_le_countP {α : Type} {p : α → Bool} :
    ∀ {s : List α} {a b : α}, a ∈ s → b ∈ s → a ≠ b → p a = true → p b = true →
      2 ≤ s.countP p := by
  intro s
  induction s with
  | nil => intro a b ha; cases ha
  | cons c t ih =>
      intro a b ha hb hne hpa hpb
      rw [List.countP_cons]
      rcases List.mem_cons.mp ha with rfl | ha'
      · rcases List.mem_cons.mp hb with rfl | hb'
        · exact absurd rfl hne
        · have h1 : 0 < t.countP p := List.countP_pos_iff.mpr ⟨b, hb', hpb⟩
          rw [if_pos hpa]
          omega
      · rcases List.mem_cons.mp hb with rfl | hb'
        · have h1 : 0 < t.countP p := List.countP_pos_iff.mpr ⟨a, ha', hpa⟩
          rw [if_pos hpb]
          omega
        · have h2 := ih ha' hb' hne hpa hpb
          split <;> omega

theorem countP_le_one_unique {α : Type} {p : α → Bool} {s : List α}
    (h : s.countP p ≤ 1) {a b : α} (ha : a ∈ s) (hb : b ∈ s)
    (hpa : p a = true) (hpb : p b = true) : a = b := by
  by_contra hne
  exact absurd h (by have := two_le_countP ha hb hne hpa hpb; omega)

namespace AvailabilityService

theorem phase1Sheet_sheet_take (d : Nat) (s : Sheet) :
    ((phase1Sheet d s).sheet).take s.length = s := by
  unfold phase1Sheet
  cases h : findRowIdx d s with
  | some i => simp
  | none => exact List.take_left s [(⟨some d, some 0, some SLOT_CAP⟩ : Row)]

theorem phase1Sheet_mem {d : Nat} {s : Sheet} {r : Row}
    (h : r ∈ (phase1Sheet d s).sheet) :
    r ∈ s ∨ r = ⟨some d, some 0, some SLOT_CAP⟩ := by
  unfold phase1Sheet at h
  cases hf : findRowIdx d s with
  | some i => rw [hf] at h; exact Or.inl h
  | none =>
      rw [hf] at h
      simp only [List.mem_append, List.mem_singleton] at h
      exact h

theorem phase1Sheet_over {d : Nat} {s : Sheet} {r : Row}
    (hwf : s.countP (fun r => r.date == some d) ≤ 1)
    (hr : r ∈ s) (hd : r.date = some d) (hl : r.left.getD SLOT_CAP ≤ 0) :
    (phase1Sheet d s).currentLeft ≤ 0 := by
  unfold phase1Sheet
  cases hf : findRowIdx d s with
  | none => exact absurd hd (findRowIdx_none_forall hf r hr)
  | some i =>
      simp only
      have hlt := findRowIdx_some_lt hf
      have hdate := findRowIdx_some_date hf
      have hmem := getD_mem_of_lt hlt
      have : s.getD i dRow = r :=
        countP_le_one_unique hwf hmem hr (beq_iff_eq.mpr hdate) (beq_iff_eq.mpr hd)
      rw [this]
      exact hl

theorem phase2Sheet_inv {d : Nat} {s : Sheet}
    (hinv : ∀ r ∈ s, RowInv r)
    (hpos : ¬((phase1Sheet d s).currentLeft ≤ 0)) :
    ∀ r' ∈ (phase2Sheet (phase1Sheet d s)).1, RowInv r' := by
  cases hf : findRowIdx d s with
  | some i =>
      have hlt := findRowIdx_some_lt hf
      obtain ⟨b, l, hb, hl, h0, hcap, hbl⟩ := hinv _ (getD_mem_of_lt hlt)
      have hsheet : (phase1Sheet d s).sheet = s := by
        unfold phase1Sheet; rw [hf]
      have htr : (phase1Sheet d s).targetRow = i := by
        unfold phase1Sheet; rw [hf]
      have hcl : (phase1Sheet d s).currentLeft = l := by
        have h1 : (phase1Sheet d s).currentLeft
            = (List.getD s i dRow).left.getD SLOT_CAP := by
          unfold phase1Sheet; rw [hf]
        rw [h1, hl]
        rfl
      rw [hcl] at hpos
      intro r' hr'
      unfold phase2Sheet at hr'
      rw [hsheet, htr, hcl] at hr'
      rcases List.mem_or_eq_of_mem_set hr' with hmem | rfl
      · exact hinv _ hmem
      · refine ⟨b + 1, max 0 (l - 1), by rw [hb]; rfl, rfl, ?_, ?_, ?_⟩ <;> omega
  | none =>
      have hsheet : (phase1Sheet d s).sheet = s ++ [⟨some d, some 0, some SLOT_CAP⟩] := by
        unfold phase1Sheet; rw [hf]
      have htr : (phase1Sheet d s).targetRow = s.length := by
        unfold phase1Sheet; rw [hf]
      have hcl : (phase1Sheet d s).currentLeft = SLOT_CAP := by
        unfold phase1Sheet; rw [hf]
      have hget : (s ++ [(⟨some d, some 0, some SLOT_CAP⟩ : Row)]).getD s.length dRow
          = ⟨some d, some 0, some SLOT_CAP⟩ := getD_append_self s _
      intro r' hr'
      unfold phase2Sheet at hr'
      rw [hsheet, htr, hcl, hget] at hr'
      rcases List.mem_or_eq_of_mem_set hr' with hmem | rfl
      · rcases List.mem_append.mp hmem with h | h
        · exact hinv _ h
        · rw [List.mem_singleton.mp h]
          exact ⟨0, SLOT_CAP, rfl, rfl, by norm_num [SLOT_CAP]⟩
      · exact ⟨1, max 0 (SLOT_CAP - 1), by simp, rfl, by norm_num [SLOT_CAP]⟩

end AvailabilityService

/-- Claim C3: for every date flagged as a holiday, the cross-category
decrement rejects before the lock is even consulted (the result is the same
for any lock state) and every category sheet is returned unchanged. -/
theorem C3_holiday_rejection
    (holiday : Nat → Bool) (lockBusy : Bool) (d : Nat) (sheets : List Sheet)
    (h : holiday d = true) :
    (AvailabilityService.decrementSlotAllCategories holiday lockBusy d sheets).1
        = .error "Cannot book appointments on holidays" ∧
      (AvailabilityService.decrementSlotAllCategories holiday lockBusy d sheets).2
        = sheets := by
  unfold AvailabilityService.decrementSlotAllCategories
  rw [h]
  exact ⟨rfl, rfl⟩

/-- Witness for C3: date 5 is a holiday; the decrement rejects and leaves the
one-row ledger untouched even with the lock busy. -/
theorem C3_holiday_rejection_witness :
    (AvailabilityService.decrementSlotAllCategories (fun d => d == 5) true 5
        [[⟨some 5, some 0, some 20⟩]]).1
      = .error "Cannot book appointments on holidays" ∧
    (AvailabilityService.decrementSlotAllCategories (fun d => d == 5) true 5
        [[⟨some 5, some 0, some 20⟩]]).2
      = [[⟨some 5, some 0, some 20⟩]] :=
  C3_holiday_rejection (fun d => d == 5) true 5 [[⟨some 5, some 0, some 20⟩]]
    (by decide)

/-- Claim C1: if during the read phase of
`AvailabilityService.decrementSlotAllCategories` any category's ledger row
for the date has `left <= 0` (with the source's `typeof`-default reading),
the operation aborts with the "No available slots" failure and no category's
pre-existing row is modified — in particular no `left` value is decremented.
`hwf` states the data-model invariant that a category sheet holds at most one
row per date. -/
theorem C1_overbooking_aborts_all
    (holiday : Nat → Bool) (d : Nat) (sheets : List Sheet)
    (hwf : ∀ s ∈ sheets, s.countP (fun r => r.date == some d) ≤ 1)
    (hhol : holiday d = false)
    (hover : ∃ s ∈ sheets, ∃ r ∈ s, r.date = some d ∧ r.left.getD SLOT_CAP ≤ 0) :
    (AvailabilityService.decrementSlotAllCategories holiday false d sheets).1
        = .error "No available slots" ∧
      (AvailabilityService.decrementSlotAllCategories holiday false d sheets).2.length
        = sheets.length ∧
      ∀ i, i < sheets.length →
        ((AvailabilityService.decrementSlotAllCategories holiday false d
            sheets).2.getD i []).take ((sheets.getD i []).length)
          = sheets.getD i [] := by
  obtain ⟨s, hs, r, hr, hd, hl⟩ := hover
  have hob : (sheets.map (AvailabilityService.phase1Sheet d)).any
      (fun sr => decide (sr.currentLeft ≤ 0)) = true := by
    rw [List.any_eq_true]
    exact ⟨AvailabilityService.phase1Sheet d s, List.mem_map_of_mem _ hs,
      by simpa using AvailabilityService.phase1Sheet_over (hwf s hs) hr hd hl⟩
  have key : AvailabilityService.decrementSlotAllCategories holiday false d sheets
      = (.error "No available slots",
         (sheets.map (AvailabilityService.phase1Sheet d)).map (fun sr => sr.sheet)) := by
    unfold AvailabilityService.decrementSlotAllCategories
    rw [hhol]
    simp only [Bool.false_eq_true, if_false]
    rw [if_pos hob]
  rw [key]
  refine ⟨rfl, by simp, ?_⟩
  intro i hi
  have h2 : ((sheets.map (AvailabilityService.phase1Sheet d)).map
      (fun sr => sr.sheet)).getD i []
      = (AvailabilityService.phase1Sheet d (sheets.getD i [])).sheet := by
    rw [List.map_map]
    rw [List.getD_eq_getElem _ _ (by simpa using hi), List.getElem_map,
      List.getD_eq_getElem _ _ hi]
    rfl
  rw [h2]
  exact AvailabilityService.phase1Sheet_sheet_take d _

/-- Counterexample for C2: `rebuildSlotCounters` writes
`left = SLOT_CAP - booked` without clamping, so a date with 21 retained
responses yields the observable ledger row `(date 5, booked 21, left -1)`,
violating `0 <= left`. -/
theorem C2_counterexample :
    rebuildSlotCounters (List.replicate 21 5)
        = [⟨some 5, some 21, some (-1)⟩] ∧
      ¬ RowInv ⟨some 5, some 21, some (-1)⟩ := by
  constructor
  · decide
  · decide

/-- Claim C2 (amended): the decrement, revert and seeding operations preserve
the row invariant `0 <= left <= SLOT_CAP ∧ booked = SLOT_CAP - left` on every
(category, date) row; `rebuildSlotCounters` always establishes
`booked >= 0 ∧ booked + left = SLOT_CAP`, but establishes the full invariant
(in particular `left >= 0`) only when no date's tallied response count
exceeds `SLOT_CAP`. -/
theorem C2_amended_ledger_invariant :
    (∀ (holiday : Nat → Bool) (lockBusy : Bool) (d : Nat) (sheets : List Sheet),
        (∀ s ∈ sheets, ∀ r ∈ s, RowInv r) →
        ∀ s' ∈ (AvailabilityService.decrementSlotAllCategories holiday lockBusy d
            sheets).2, ∀ r' ∈ s', RowInv r')
    ∧ (∀ (d : Nat) (s : Sheet), (∀ r ∈ s, RowInv r) →
        ∀ r' ∈ revertAvailabilityForDate_ d s, RowInv r')
    ∧ (∀ (start days : Nat) (holiday : Nat → Bool) (s : Sheet),
        (∀ r ∈ s, RowInv r) →
        ∀ r' ∈ seedAvailabilityWindow start days holiday s, RowInv r')
    ∧ (∀ dates : List Nat,
        (∀ r ∈ rebuildSlotCounters dates,
          ∃ b l : Int, r.booked = some b ∧ r.left = some l ∧
            0 ≤ b ∧ b + l = SLOT_CAP)
        ∧ ((∀ d : Nat, (dates.count d : Int) ≤ SLOT_CAP) →
            ∀ r ∈ rebuildSlotCounters dates, RowInv r)) := by
  refine ⟨?_, ?_, ?_, ?_⟩
  · -- decrementSlotAllCategories preserves the invariant
    intro holiday lockBusy d sheets hinv s' hs' r' hr'
    simp only [AvailabilityService.decrementSlotAllCategories] at hs'
    split at hs'
    · exact hinv s' hs' r' hr'
    · split at hs'
      · exact hinv s' hs' r' hr'
      · split at hs'
        · obtain ⟨sr, hsr, rfl⟩ := List.mem_map.mp hs'
          obtain ⟨s0, hs0, rfl⟩ := List.mem_map.mp hsr
          rcases AvailabilityService.phase1Sheet_mem hr' with h | rfl
          · exact hinv s0 hs0 _ h
          · exact ⟨0, SLOT_CAP, rfl, rfl, by norm_num [SLOT_CAP]⟩
        · rename_i hno
          obtain ⟨pair, hpair, rfl⟩ := List.mem_map.mp hs'
          obtain ⟨sr, hsr, rfl⟩ := List.mem_map.mp hpair
          obtain ⟨s0, hs0, rfl⟩ := List.mem_map.mp hsr
          refine AvailabilityService.phase2Sheet_inv (hinv s0 hs0) ?_ r' hr'
          intro hle
          exact hno (List.any_eq_true.mpr
            ⟨_, List.mem_map_of_mem _ hs0, by simpa using hle⟩)
  · -- revertAvailabilityForDate_ preserves the invariant
    intro d s hinv r' hr'
    unfold revertAvailabilityForDate_ at hr'
    cases hf : findRowIdx d s with
    | none => rw [hf] at hr'; exact hinv r' hr'
    | some i =>
        rw [hf] at hr'
        simp only at hr'
        have hlt := findRowIdx_some_lt hf
        obtain ⟨b, l, hb, hl, h0, hcap, hbl⟩ := hinv _ (getD_mem_of_lt hlt)
        rcases List.mem_or_eq_of_mem_set hr' with hmem | rfl
        · exact hinv _ hmem
        · refine ⟨max 0 (b - 1), min SLOT_CAP (l + 1),
            by rw [hb]; rfl, by rw [hl]; rfl, ?_, ?_, ?_⟩ <;> omega
  · -- seedAvailabilityWindow preserves / establishes the invariant
    intro start days holiday s hinv r' hr'
    unfold seedAvailabilityWindow at hr'
    rcases List.mem_append.mp hr' with h | h
    · exact hinv _ (List.mem_of_mem_filter h)
    · unfold seedMissing at h
      obtain ⟨day, hday, hsome⟩ := List.mem_filterMap.mp h
      by_cases hc : (!(day % 7 == 0 || day % 7 == 6) && !holiday day
          && !((seedKeep start days s).any fun r => r.date == some day)) = true
      · rw [if_pos hc] at hsome
        cases hsome
        exact ⟨0, SLOT_CAP, rfl, rfl, by norm_num [SLOT_CAP]⟩
      · rw [if_neg hc] at hsome
        cases hsome
  · -- rebuildSlotCounters
    intro dates
    constructor
    · intro r hr
      obtain ⟨d, hd, rfl⟩ := List.mem_map.mp hr
      exact ⟨_, _, rfl, rfl, by positivity, by ring⟩
    · intro hle r hr
      obtain ⟨d, hd, rfl⟩ := List.mem_map.mp hr
      refine ⟨_, _, rfl, rfl, ?_, ?_, ?_⟩
      · have := hle d
        omega
      · have : (0 : Int) ≤ (dates.count d : Int) := by positivity
        omega
      · ring

/-- Witness for C2 (amended): reverting `(booked 5, left 15)` yields
`(booked 4, left 16)`, which satisfies the row invariant. -/
theorem C2_amended_ledger_invariant_witness :
    RowInv ⟨some 3, some 4, some 16⟩ := by
  have h := C2_amended_ledger_invariant.2.1 3 [⟨some 3, some 5, some 15⟩] (by decide)
  exact h _ (by decide)

/-- Witness for C1: two categories, the first already at `left = 0`; the
decrement aborts and the pre-existing rows survive unchanged. -/
theorem C1_overbooking_aborts_all_witness :
    (AvailabilityService.decrementSlotAllCategories (fun _ => false) false 5
        [[⟨some 5, some 20, some 0⟩], [⟨some 5, some 0, some 20⟩]]).1
      = .error "No available slots" ∧
    ((AvailabilityService.decrementSlotAllCategories (fun _ => false) false 5
        [[⟨some 5, some 20, some 0⟩], [⟨some 5, some 0, some 20⟩]]).2.getD 1 []).take 1
      = [⟨some 5, some 0, some 20⟩] := by
  have h := C1_overbooking_aborts_all (fun _ => false) 5
    [[⟨some 5, some 20, some 0⟩], [⟨some 5, some 0, some 20⟩]]
    (by decide) rfl
    ⟨[⟨some 5, some 20, some 0⟩], by decide, ⟨some 5, some 20, some 0⟩,
      by decide, rfl, by decide⟩
  exact ⟨h.1, by simpa using h.2.2 1 (by decide)⟩


/-! ### Holiday service theorems -/

/-- Counterexample for C8: with an empty cache and a reachable remote
calendar that has no event on 2026-12-25, `isHoliday` returns `false`
although the date is in the manual fallback table — the fallback table is
*not* consulted when the remote calendar is available. -/
theorem C8_counterexample :
    HolidayService.isHoliday none (.avail fun _ => false)
        (some ⟨2026, 12, 25⟩) = false ∧
      HolidayService.manualMatch ⟨2026, 12, 25⟩ = true := by
  exact ⟨rfl, rfl⟩

/-- Claim C8 (amended): `isHoliday` returns `true` iff the cached set
contains the date, or — when the remote calendar is reachable — the remote
calendar has an event that day, or — when the remote calendar is unreachable
or its query throws — the month/day matches the fallback table.  A
fallback-table date is therefore reported as a holiday whenever the remote
calendar is unavailable, and `fetchRange` unions the fallback table into its
result unconditionally (even when remote data is present). -/
theorem C8_amended_isHoliday_characterisation :
    (∀ (cache : Option (List Ymd)) (remote : RemoteCal),
        HolidayService.isHoliday cache remote none = false)
    ∧ (∀ (cache : Option (List Ymd)) (events : Ymd → Bool) (date : Ymd),
        HolidayService.isHoliday cache (.avail events) (some date)
          = ((cache.getD []).contains date || events date))
    ∧ (∀ (cache : Option (List Ymd)) (date : Ymd),
        HolidayService.isHoliday cache .unavail (some date)
            = ((cache.getD []).contains date || HolidayService.manualMatch date)
          ∧ HolidayService.isHoliday cache .availErr (some date)
            = ((cache.getD []).contains date || HolidayService.manualMatch date))
    ∧ (∀ (remote : RemoteCal) (days : List Ymd) (d : Ymd),
        d ∈ days → HolidayService.manualMatch d = true →
        d ∈ HolidayService.fetchRange remote days) := by
  refine ⟨fun _ _ => rfl, ?_, ?_, ?_⟩
  · intro cache events date
    unfold HolidayService.isHoliday
    by_cases h : (cache.getD []).contains date <;> simp [h]
  · intro cache date
    constructor <;>
      · unfold HolidayService.isHoliday
        by_cases h : (cache.getD []).contains date <;> simp [h]
  · intro remote days d hmem hman
    unfold HolidayService.fetchRange
    cases remote with
    | avail events =>
        simp only [List.mem_append]
        by_cases hev : events d
        · exact Or.inl (List.mem_filter.mpr ⟨hmem, hev⟩)
        · refine Or.inr (List.mem_filter.mpr ⟨hmem, ?_⟩)
          simp [hman]
          exact Or.inr (by simpa using hev)
    | availErr =>
        refine List.mem_append.mpr (Or.inr (List.mem_filter.mpr ⟨hmem, ?_⟩))
        simp [hman]
    | unavail =>
        refine List.mem_append.mpr (Or.inr (List.mem_filter.mpr ⟨hmem, ?_⟩))
        simp [hman]

/-- Witness for C8 (amended): with the remote calendar unreachable,
`fetchRange` over a one-day window containing Christmas returns it. -/
theorem C8_amended_isHoliday_characterisation_witness :
    (⟨2026, 12, 25⟩ : Ymd) ∈ HolidayService.fetchRange .unavail [⟨2026, 12, 25⟩] :=
  C8_amended_isHoliday_characterisation.2.2.2 .unavail [⟨2026, 12, 25⟩]
    ⟨2026, 12, 25⟩ (by decide) (by decide)

/-! ### Dropdown theorems -/

theorem buildBusinessDaysGo_mem {wd : Nat → String} {holiday : Nat → Bool}
    {counts : Nat → Nat} {today : Nat} :
    ∀ (fuel off found : Nat),
      ∀ it ∈ buildBusinessDaysGo wd holiday counts today off found fuel,
        0 < it.left ∧ it.left = SLOT_CAP - (counts it.date : Int) ∧
          it.label = choiceLabel wd it.date it.left := by
  intro fuel
  induction fuel with
  | zero => intro off found it h; cases h
  | succ n ih =>
      intro off found it h
      unfold buildBusinessDaysGo at h
      by_cases h1 : found < BUSINESS_DAYS_WINDOW
      · rw [if_pos h1] at h
        by_cases h2 : (!((today + off) % 7 == 0 || (today + off) % 7 == 6)) = true
        · rw [if_pos h2] at h
          by_cases h3 : holiday (today + off) = true
          · rw [if_pos h3] at h
            exact ih (off + 1) found it h
          · rw [if_neg h3] at h
            simp only at h
            by_cases h4 : (SLOT_CAP - ((counts (today + off) : Int)) > 0)
            · rw [if_pos h4] at h
              rcases List.mem_cons.mp h with rfl | hrest
              · exact ⟨h4, rfl, rfl⟩
              · by_cases h5 : off + 1 > 100
                · rw [if_pos h5] at hrest; cases hrest
                · rw [if_neg h5] at hrest
                  exact ih (off + 1) (found + 1) it hrest
            · rw [if_neg h4] at h
              by_cases h5 : off + 1 > 100
              · rw [if_pos h5] at h; cases h
              · rw [if_neg h5] at h
                exact ih (off + 1) (found + 1) it h
        · rw [if_neg h2] at h
          by_cases h5 : off + 1 > 100
          · rw [if_pos h5] at h; cases h
          · rw [if_neg h5] at h
            exact ih (off + 1) found it h
      · rw [if_neg h1] at h
        cases h

/-- Claim C9: every choice label placed into a form date dropdown carries a
strictly positive slots-left value: (1) `buildBusinessDays` only emits labels
for dates with `SLOT_CAP - counts[key] > 0`; (2) `updateFormDateDropdown_`
only emits labels for rows whose `Slots Left` reading is positive; (3) when
`updateFormDropdownForDate_` is invoked with `slotsLeft <= 0`, no choice for
that date survives in the updated list. -/
theorem C9_dropdown_only_positive_slots :
    (∀ (wd : Nat → String) (holiday : Nat → Bool) (counts : Nat → Nat)
        (today : Nat),
        ∀ lab ∈ (buildBusinessDays wd holiday counts today).2,
          ∃ day : Nat, ∃ left : Int, 0 < left ∧
            left = SLOT_CAP - (counts day : Int) ∧ lab = choiceLabel wd day left)
    ∧ (∀ (wd : Nat → String) (holiday : Nat → Bool) (today : Nat) (rows : Sheet)
          (out : List String),
        updateFormDateDropdown_ wd holiday today rows = some out →
        ∀ lab ∈ out, ∃ r ∈ rows, ∃ day : Nat, r.date = some day ∧
          0 < r.left.getD SLOT_CAP ∧ lab = choiceLabel wd day (r.left.getD SLOT_CAP))
    ∧ (∀ (wd : Nat → String) (d : Nat) (slotsLeft : Int) (choices : List String),
        slotsLeft ≤ 0 →
        ∀ c ∈ updateFormDropdownForDate_ wd d slotsLeft choices,
          strStartsWith c (ymdString d) = false) := by
  refine ⟨?_, ?_, ?_⟩
  · intro wd holiday counts today lab hlab
    unfold buildBusinessDays at hlab
    obtain ⟨it, hit, rfl⟩ := List.mem_map.mp hlab
    have hit' := List.mem_mergeSort.mp hit
    obtain ⟨hpos, hleft, hlabel⟩ := buildBusinessDaysGo_mem 1000 0 0 it hit'
    exact ⟨it.date, it.left, hpos, hleft, hlabel.symm ▸ rfl⟩
  · intro wd holiday today rows out hout lab hlab
    unfold updateFormDateDropdown_ at hout
    simp only at hout
    split at hout
    · cases hout
    · cases hout
      have hlab' := List.mem_mergeSort.mp hlab
      obtain ⟨r, hr, hfr⟩ := List.mem_filterMap.mp hlab'
      refine ⟨r, hr, ?_⟩
      cases hd : r.date with
      | none => rw [hd] at hfr; cases hfr
      | some day =>
          rw [hd] at hfr
          simp only at hfr
          by_cases hc1 : (day < today || today + MAX_ADVANCE_DAYS < day) = true
          · rw [if_pos hc1] at hfr; cases hfr
          · rw [if_neg hc1] at hfr
            by_cases hc2 : holiday day = true
            · rw [if_pos hc2] at hfr; cases hfr
            · rw [if_neg hc2] at hfr
              by_cases hc3 : (day % 7 == 0 || day % 7 == 6) = true
              · rw [if_pos hc3] at hfr; cases hfr
              · rw [if_neg hc3] at hfr
                by_cases hc4 : r.left.getD SLOT_CAP > 0
                · rw [if_pos hc4] at hfr
                  cases hfr
                  exact ⟨day, rfl, hc4, rfl⟩
                · rw [if_neg hc4] at hfr; cases hfr
  · intro wd d slotsLeft choices hle c hc
    obtain ⟨c0, hc0, hfc⟩ := List.mem_filterMap.mp hc
    by_cases hsw : strStartsWith c0 (ymdString d) = true
    · rw [if_pos hsw] at hfc
      rw [if_neg (by omega)] at hfc
      cases hfc
    · rw [if_neg hsw] at hfc
      cases hfc
      exact Bool.not_eq_true _ |>.mp hsw

/-- Witness for C9: updating the dropdown for day 5 with `slotsLeft = 0`
removes the day-5 choice; the surviving foreign choice "x" does not start
with day 5's date string. -/
theorem C9_dropdown_only_positive_slots_witness :
    strStartsWith "x" (ymdString 5) = false := by
  have h := C9_dropdown_only_positive_slots.2.2 (fun _ => "Mon") 5 0
    [choiceLabel (fun _ => "Mon") 5 3, "x"] (le_refl 0)
  exact h "x" (by decide)



/-! ### Summary-window (C4) and counterexample evaluations -/

/-- Claim C4 (code bug): after a full `validateSummaryWindow` pass over
`[today, today + FUTURE_DAYS]` starting from an empty calendar, day
`today = 1` is a valid business date yet ends with zero summary events —
the pass creates nothing.  The mechanism is pinned by the last conjunct:
`validateSummaryWindow` calls `upsertDailySummaryEvent(dateObj, undefined,
minLeft, entry)`, and the upsert's own input validation
(`typeof bookedCount !== 'number'`) rejects `undefined` and returns without
creating, for every state and argument. -/
theorem C4_validateSummaryWindow_creates_nothing :
    DateUtils.validBizN 1 60 (fun _ => false) 1 = true ∧
    (validateSummaryWindow 1 60 (fun _ => false) [] false
        ⟨[], 0, 0, 0, 0, 0, 0, false⟩).cal = [] ∧
    (validateSummaryWindow 1 60 (fun _ => false) [] false
        ⟨[], 0, 0, 0, 0, 0, 0, false⟩).created = 0 ∧
    (∀ (st : CalSt) (today fd : Nat) (holiday : Nat → Bool) (d : Nat)
        (left : Option Int) (lockBusy : Bool),
      upsertDailySummaryEvent today fd holiday d none left lockBusy st = st) := by
  refine ⟨by decide, ?_, ?_, ?_⟩
  · set_option maxRecDepth 100000 in decide
  · set_option maxRecDepth 100000 in decide
  · intro st today fd holiday d left lockBusy
    unfold upsertDailySummaryEvent
    split
    · rfl
    · rfl

/-- Counterexample for C6: the same identity tuple submits in category "A"
at timestamp 50 and in category "B" at timestamp 100; the expected set holds
exactly one title, but it carries category "A" (the earlier registry entry),
not the category of the later submission. -/
theorem C6_counterexample :
    getExpectedAppointmentsForDate
        [⟨"A", [⟨"X", "Y", "P", "B", 5, 50⟩]⟩,
         ⟨"B", [⟨"X", "Y", "P", "B", 5, 100⟩]⟩] 5
      = [.appt "A" "X" "Y" "P" "B"] ∧
    Title.appt "A" "X" "Y" "P" "B" ≠ Title.appt "B" "X" "Y" "P" "B" ∧
    (50 : Nat) < 100 := by
  decide

/-- Counterexample for C5: from an empty calendar with 30 valid business
dates in `[1, 40]` (each needing one summary creation), the first
`syncDateRange` run stops creating at the per-run quota of 20 calls, and the
second run on the unchanged snapshot performs 10 further create calls — not
zero. -/
theorem C5_counterexample :
    (syncDateRange 1 60 (fun _ => false) [] [] 1 40
        ⟨[], 0, 0, 0, 0, 0, 0, false⟩).created = 20 ∧
    (syncDateRange 1 60 (fun _ => false) [] [] 1 40
      (syncDateRange 1 60 (fun _ => false) [] [] 1 40
        ⟨[], 0, 0, 0, 0, 0, 0, false⟩)).created = 10 := by
  constructor
  · set_option maxRecDepth 100000 in decide
  · set_option maxRecDepth 100000 in decide



/-! ### Dedup (C6) lemmas -/

theorem identOf_apptTitle (cat : String) (r : RespRow) :
    (apptTitle cat r).identOf = some (identKey r) := rfl

theorem dedupScan_cons (cat : String)
    (seen : List (String × String × String × String)) (r : RespRow)
    (rest : List RespRow) :
    dedupScan cat seen (r :: rest)
      = if seen.contains (identKey r) then dedupScan cat seen rest
        else (apptTitle cat r :: (dedupScan cat (identKey r :: seen) rest).1,
              (dedupScan cat (identKey r :: seen) rest).2) := by
  by_cases hc : seen.contains (identKey r) = true
  · rw [if_pos hc]
    conv_lhs => rw [dedupScan]
    rw [if_pos hc]
  · rw [if_neg hc]
    conv_lhs => rw [dedupScan]
    rw [if_neg hc]

theorem dedupScan_spec (cat : String) (k : String × String × String × String) :
    ∀ (rows : List RespRow) (seen : List (String × String × String × String)),
      ((dedupScan cat seen rows).1.countP (fun t => t.identOf == some k)
        = if seen.contains k then 0
          else if rows.any (fun r => identKey r == k) then 1 else 0)
      ∧ ((dedupScan cat seen rows).2.contains k
        = (seen.contains k || rows.any (fun r => identKey r == k))) := by
  intro rows
  induction rows with
  | nil => intro seen; simp [dedupScan]
  | cons r rest ih =>
      intro seen
      by_cases hc : seen.contains (identKey r) = true
      · rw [dedupScan_cons, if_pos hc]
        obtain ⟨ih1, ih2⟩ := ih seen
        by_cases hk : identKey r = k
        · subst hk
          constructor
          · rw [ih1, if_pos hc, if_pos hc]
          · rw [ih2, hc]
            simp
        · have hrk : (identKey r == k) = false := by simpa using hk
          constructor
          · rw [ih1]
            simp [hrk]
          · rw [ih2]
            simp [hrk]
      · have hc' : seen.contains (identKey r) = false := by simpa using hc
        rw [dedupScan_cons, if_neg hc]
        obtain ⟨ih1, ih2⟩ := ih (identKey r :: seen)
        by_cases hk : identKey r = k
        · subst hk
          have hseen' : ((identKey r :: seen).contains (identKey r)) = true := by
            simp
          constructor
          · simp only [List.countP_cons]
            rw [ih1, if_pos hseen']
            have hnot : identKey r ∉ seen := by simpa using hc'
            simp [identOf_apptTitle, hnot]
          · simp only [ih2, hseen', hc']
            simp
        · have hrk : (identKey r == k) = false := by simpa using hk
          have hseen' : ((identKey r :: seen).contains k) = seen.contains k := by
            simp [List.contains_cons]
            intro he
            exact absurd he.symm hk
          constructor
          · simp only [List.countP_cons]
            rw [ih1, hseen']
            have : ((apptTitle cat r).identOf == some k) = false := by
              simp [identOf_apptTitle]
              exact hk
            simp [this, hrk]
          · rw [ih2, hseen']
            simp [hrk]

theorem sortedAny_eq (d : Nat) (k : String × String × String × String)
    (sh : RespSheet) :
    ((sh.rows.filter (fun r => r.date == d)).insertionSort
        (fun a b => b.ts ≤ a.ts)).any (fun r => identKey r == k)
      = sh.rows.any (fun r => r.date == d && identKey r == k) := by
  rw [Bool.eq_iff_iff]
  simp only [List.any_eq_true, List.mem_insertionSort, List.mem_filter,
    Bool.and_eq_true]
  constructor
  · rintro ⟨r, ⟨hr, hd⟩, hk⟩
    exact ⟨r, hr, hd, hk⟩
  · rintro ⟨r, hr, hd, hk⟩
    exact ⟨r, ⟨hr, hd⟩, hk⟩

theorem getExpectedGo_countP (d : Nat) (k : String × String × String × String) :
    ∀ (sheets : List RespSheet) (seen : List (String × String × String × String)),
      (getExpectedGo d seen sheets).countP (fun t => t.identOf == some k)
        = if seen.contains k then 0
          else if sheets.any (fun sh => sh.rows.any fun r =>
              r.date == d && identKey r == k) then 1 else 0 := by
  intro sheets
  induction sheets with
  | nil => intro seen; simp [getExpectedGo]
  | cons sh rest ih =>
      intro seen
      have hstep : getExpectedGo d seen (sh :: rest)
          = (dedupScan sh.name seen ((sh.rows.filter (fun r => r.date == d)).insertionSort
              (fun a b => b.ts ≤ a.ts))).1
            ++ getExpectedGo d
              (dedupScan sh.name seen ((sh.rows.filter (fun r => r.date == d)).insertionSort
                (fun a b => b.ts ≤ a.ts))).2 rest := rfl
      rw [hstep, List.countP_append]
      obtain ⟨h1, h2⟩ := dedupScan_spec sh.name k
        ((sh.rows.filter (fun r => r.date == d)).insertionSort (fun a b => b.ts ≤ a.ts))
        seen
      rw [h1, ih _, h2, sortedAny_eq]
      by_cases hs : seen.contains k = true
      · have hks : k ∈ seen := by simpa using hs
        simp [hks]
      · have hks : k ∉ seen := by simpa using hs
        by_cases hsh : sh.rows.any (fun r => r.date == d && identKey r == k) = true
        · have hsh2 : ∃ x ∈ sh.rows, x.date = d ∧ identKey x = k := by simpa using hsh
          simp [hks, hsh2]
        · have hsh2 : ¬∃ x ∈ sh.rows, x.date = d ∧ identKey x = k := by
            simpa using hsh
          simp [hks, hsh2]

theorem dedupScan_mem (cat : String) (ln fn p b : String) :
    ∀ (rows : List RespRow) (seen : List (String × String × String × String)),
      seen.contains (ln, fn, p, b) = false →
      (∃ r ∈ rows, identKey r = (ln, fn, p, b)) →
      Title.appt cat ln fn p b ∈ (dedupScan cat seen rows).1 := by
  intro rows
  induction rows with
  | nil => rintro seen _ ⟨r, hr, -⟩; cases hr
  | cons r rest ih =>
      rintro seen hseen ⟨r0, hr0, hk0⟩
      by_cases hc : seen.contains (identKey r) = true
      · rw [dedupScan_cons, if_pos hc]
        rcases List.mem_cons.mp hr0 with rfl | hmem
        · rw [hk0] at hc
          rw [hc] at hseen
          cases hseen
        · exact ih seen hseen ⟨r0, hmem, hk0⟩
      · have hc' : seen.contains (identKey r) = false := by simpa using hc
        rw [dedupScan_cons, if_neg hc]
        by_cases hk : identKey r = (ln, fn, p, b)
        · have heq : apptTitle cat r = Title.appt cat ln fn p b := by
            unfold apptTitle
            unfold identKey at hk
            rw [Prod.mk.injEq] at hk
            obtain ⟨h1, hk2⟩ := hk
            rw [Prod.mk.injEq] at hk2
            obtain ⟨h2, hk3⟩ := hk2
            rw [Prod.mk.injEq] at hk3
            obtain ⟨h3, h4⟩ := hk3
            rw [h1, h2, h3, h4]
          rw [← heq]
          exact List.mem_cons_self _ _
        · rcases List.mem_cons.mp hr0 with rfl | hmem
          · exact absurd hk0 hk
          · have hseen' : (identKey r :: seen).contains (ln, fn, p, b) = false := by
              simp [List.contains_cons]
              exact ⟨fun he => hk he.symm, by simpa using hseen⟩
            exact List.mem_cons_of_mem _ (ih _ hseen' ⟨r0, hmem, hk0⟩)

theorem getExpectedGo_mem_firstCat (d : Nat) (ln fn p b : String) :
    ∀ (sheets : List RespSheet) (seen : List (String × String × String × String)),
      seen.contains (ln, fn, p, b) = false →
      (∃ sh ∈ sheets, ∃ r ∈ sh.rows, r.date = d ∧ identKey r = (ln, fn, p, b)) →
      ∃ cat, firstCatWith sheets d (ln, fn, p, b) = some cat ∧
        Title.appt cat ln fn p b ∈ getExpectedGo d seen sheets := by
  intro sheets
  induction sheets with
  | nil => rintro seen _ ⟨sh, hsh, -⟩; cases hsh
  | cons sh rest ih =>
      rintro seen hseen hex
      have hstep : getExpectedGo d seen (sh :: rest)
          = (dedupScan sh.name seen ((sh.rows.filter (fun r => r.date == d)).insertionSort
              (fun a b => b.ts ≤ a.ts))).1
            ++ getExpectedGo d
              (dedupScan sh.name seen ((sh.rows.filter (fun r => r.date == d)).insertionSort
                (fun a b => b.ts ≤ a.ts))).2 rest := rfl
      by_cases hhas : (sh.rows.any fun r => r.date == d && identKey r == (ln, fn, p, b)) = true
      · refine ⟨sh.name, ?_, ?_⟩
        · unfold firstCatWith
          rw [List.find?_cons_of_pos rest hhas]
          rfl
        · rw [hstep]
          refine List.mem_append.mpr (Or.inl (dedupScan_mem sh.name ln fn p b _ seen hseen ?_))
          obtain ⟨r, hr, hcond⟩ := List.any_eq_true.mp hhas
          rw [Bool.and_eq_true] at hcond
          obtain ⟨hd, hk⟩ := hcond
          refine ⟨r, ?_, by simpa using hk⟩
          rw [List.mem_insertionSort]
          exact List.mem_filter.mpr ⟨hr, hd⟩
      · have hhas' : (sh.rows.any fun r => r.date == d && identKey r == (ln, fn, p, b)) = false := by
          simpa using hhas
        obtain ⟨sh0, hsh0, r0, hr0, hd0, hk0⟩ := hex
        rcases List.mem_cons.mp hsh0 with rfl | hmem
        · have hcontra : (sh0.rows.any fun r =>
              r.date == d && identKey r == (ln, fn, p, b)) = true :=
            List.any_eq_true.mpr ⟨r0, hr0, by simp [hd0, hk0]⟩
          rw [hcontra] at hhas'
          cases hhas' 
        · have hseen' : ((dedupScan sh.name seen
              ((sh.rows.filter (fun r => r.date == d)).insertionSort
                (fun a b => b.ts ≤ a.ts))).2.contains (ln, fn, p, b)) = false := by
            rw [(dedupScan_spec sh.name (ln, fn, p, b) _ seen).2, sortedAny_eq]
            have hseen2 : (ln, fn, p, b) ∉ seen := by simpa using hseen
            simp [hseen2, hhas']
          obtain ⟨cat, hcat, hmemc⟩ := ih _ hseen' ⟨sh0, hmem, r0, hr0, hd0, hk0⟩
          refine ⟨cat, ?_, ?_⟩
          · unfold firstCatWith at hcat ⊢
            rw [List.find?_cons_of_neg rest (by simp [hhas'])]
            exact hcat
          · rw [hstep]
            exact List.mem_append.mpr (Or.inr hmemc)

/-- Claim C6 (amended): for every date and identity tuple, the expected
appointment set contains exactly one title for that identity (one when some
registry sheet holds a matching submission, zero otherwise); that title's
category is the one of the *first registry entry* holding a submission for
the identity — registry order, not latest `submittedAt`, decides which
category survives when duplicates span categories (within one category the
title is independent of which duplicate wins, since it is built from the
category and the identity fields alone). -/
theorem C6_amended_dedup_registry_order :
    (∀ (sheets : List RespSheet) (d : Nat)
        (k : String × String × String × String),
        (getExpectedAppointmentsForDate sheets d).countP
            (fun t => t.identOf == some k)
          = if sheets.any (fun sh => sh.rows.any fun r =>
                r.date == d && identKey r == k) then 1 else 0)
    ∧ (∀ (sheets : List RespSheet) (d : Nat) (ln fn p b : String),
        (∃ sh ∈ sheets, ∃ r ∈ sh.rows, r.date = d ∧ identKey r = (ln, fn, p, b)) →
        ∃ cat, firstCatWith sheets d (ln, fn, p, b) = some cat ∧
          Title.appt cat ln fn p b ∈ getExpectedAppointmentsForDate sheets d) := by
  constructor
  · intro sheets d k
    have h := getExpectedGo_countP d k sheets []
    simpa [getExpectedAppointmentsForDate] using h
  · intro sheets d ln fn p b hex
    exact getExpectedGo_mem_firstCat d ln fn p b sheets [] (by simp) hex

/-- Witness for C6 (amended): with the duplicate identity spanning
categories "A" (ts 50) and "B" (ts 100), the surviving title carries
category "A". -/
theorem C6_amended_dedup_registry_order_witness :
    Title.appt "A" "X" "Y" "P" "B" ∈ getExpectedAppointmentsForDate
      [⟨"A", [⟨"X", "Y", "P", "B", 5, 50⟩]⟩,
       ⟨"B", [⟨"X", "Y", "P", "B", 5, 100⟩]⟩] 5 := by
  obtain ⟨cat, hcat, hmem⟩ := C6_amended_dedup_registry_order.2
    [⟨"A", [⟨"X", "Y", "P", "B", 5, 50⟩]⟩,
     ⟨"B", [⟨"X", "Y", "P", "B", 5, 100⟩]⟩] 5 "X" "Y" "P" "B"
    (by decide)
  have h2 : firstCatWith
      [⟨"A", [⟨"X", "Y", "P", "B", 5, 50⟩]⟩,
       ⟨"B", [⟨"X", "Y", "P", "B", 5, 100⟩]⟩] 5 ("X", "Y", "P", "B")
      = some "A" := by decide
  rw [h2] at hcat
  injection hcat with h3
  rw [← h3] at hmem
  exact hmem

/-! ### Sync idempotence (C5) infrastructure: calendar-operation lemmas -/

theorem safeCreateEvent_blocked_mono (d : Nat) (t : Title) (st : CalSt)
    (h : (safeCreateEvent d t st).blocked = false) : st.blocked = false := by
  unfold safeCreateEvent at h
  by_cases hc : canCall st = true
  · rw [if_pos hc] at h
    exact h
  · rw [if_neg hc] at h
    simp at h

theorem safeDeleteEvent_blocked_mono (e : Event) (st : CalSt)
    (h : (safeDeleteEvent e st).blocked = false) : st.blocked = false := by
  unfold safeDeleteEvent at h
  by_cases hc : canCall st = true
  · rw [if_pos hc] at h
    exact h
  · rw [if_neg hc] at h
    simp at h

theorem safeUpdateTitle_blocked_mono (e : Event) (t : Title) (st : CalSt)
    (h : (safeUpdateTitle e t st).blocked = false) : st.blocked = false := by
  unfold safeUpdateTitle at h
  by_cases hc : canCall st = true
  · rw [if_pos hc] at h
    exact h
  · rw [if_neg hc] at h
    simp at h

theorem foldl_blocked_mono {β : Type} (g : CalSt → β → CalSt)
    (hg : ∀ s x, (g s x).blocked = false → s.blocked = false) :
    ∀ (l : List β) (st : CalSt),
      ((l.foldl g st).blocked = false) → st.blocked = false := by
  intro l
  induction l with
  | nil => intro st h; exact h
  | cons x xs ih => intro st h; exact hg st x (ih (g st x) h)

theorem safeCreateEvent_cal (d : Nat) (t : Title) (st : CalSt)
    (h : (safeCreateEvent d t st).blocked = false) :
    (safeCreateEvent d t st).cal = st.cal ++ [⟨st.nextId, d, t⟩] := by
  unfold safeCreateEvent at h ⊢
  by_cases hc : canCall st = true
  · rw [if_pos hc]
  · rw [if_neg hc] at h
    simp at h

theorem safeCreateEvent_nextId (d : Nat) (t : Title) (st : CalSt)
    (h : (safeCreateEvent d t st).blocked = false) :
    (safeCreateEvent d t st).nextId = st.nextId + 1 := by
  unfold safeCreateEvent at h ⊢
  by_cases hc : canCall st = true
  · rw [if_pos hc]
  · rw [if_neg hc] at h
    simp at h

theorem safeDeleteEvent_cal (e : Event) (st : CalSt)
    (h : (safeDeleteEvent e st).blocked = false) :
    (safeDeleteEvent e st).cal = st.cal.filter (fun x => !(x.id == e.id)) := by
  unfold safeDeleteEvent at h ⊢
  by_cases hc : canCall st = true
  · rw [if_pos hc]
  · rw [if_neg hc] at h
    simp at h

theorem safeDeleteEvent_nextId (e : Event) (st : CalSt)
    (h : (safeDeleteEvent e st).blocked = false) :
    (safeDeleteEvent e st).nextId = st.nextId := by
  unfold safeDeleteEvent at h ⊢
  by_cases hc : canCall st = true
  · rw [if_pos hc]
  · rw [if_neg hc] at h
    simp at h

theorem safeUpdateTitle_cal (e : Event) (t : Title) (st : CalSt)
    (h : (safeUpdateTitle e t st).blocked = false) :
    (safeUpdateTitle e t st).cal
      = st.cal.map (fun x => if x.id == e.id then { x with title := t } else x) := by
  unfold safeUpdateTitle at h ⊢
  by_cases hc : canCall st = true
  · rw [if_pos hc]
  · rw [if_neg hc] at h
    simp at h

theorem safeUpdateTitle_nextId (e : Event) (t : Title) (st : CalSt)
    (h : (safeUpdateTitle e t st).blocked = false) :
    (safeUpdateTitle e t st).nextId = st.nextId := by
  unfold safeUpdateTitle at h ⊢
  by_cases hc : canCall st = true
  · rw [if_pos hc]
  · rw [if_neg hc] at h
    simp at h

theorem idsOk_safeCreateEvent (d : Nat) (t : Title) (st : CalSt)
    (h : IdsOk st) : IdsOk (safeCreateEvent d t st) := by
  unfold safeCreateEvent
  by_cases hc : canCall st = true
  · rw [if_pos hc]
    obtain ⟨h1, h2⟩ := h
    unfold IdsOk
    constructor
    · show ((st.cal ++ [(⟨st.nextId, d, t⟩ : Event)]).map (fun ev => ev.id)).Nodup
      rw [List.map_append]
      rw [List.nodup_append]
      refine ⟨h1, List.nodup_singleton _, ?_⟩
      intro a ha hb
      simp only [List.map_cons, List.map_nil, List.mem_singleton] at hb
      subst hb
      obtain ⟨ev, hev, hid⟩ := List.mem_map.mp ha
      have := h2 ev hev
      omega
    · intro ev hev
      show ev.id < st.nextId + 1
      rcases List.mem_append.mp hev with hl | hr
      · have := h2 ev hl
        omega
      · simp only [List.mem_singleton] at hr
        subst hr
        show st.nextId < st.nextId + 1
        omega
  · rw [if_neg hc]
    exact h

theorem idsOk_safeDeleteEvent (e : Event) (st : CalSt)
    (h : IdsOk st) : IdsOk (safeDeleteEvent e st) := by
  unfold safeDeleteEvent
  by_cases hc : canCall st = true
  · rw [if_pos hc]
    obtain ⟨h1, h2⟩ := h
    unfold IdsOk
    constructor
    · exact ((List.filter_sublist _).map _).nodup h1
    · intro ev hev
      exact h2 ev (List.mem_filter.mp hev).1
  · rw [if_neg hc]
    exact h

theorem idsOk_safeUpdateTitle (e : Event) (t : Title) (st : CalSt)
    (h : IdsOk st) : IdsOk (safeUpdateTitle e t st) := by
  unfold safeUpdateTitle
  by_cases hc : canCall st = true
  · rw [if_pos hc]
    obtain ⟨h1, h2⟩ := h
    unfold IdsOk
    constructor
    · show (((st.cal.map (fun x => if x.id == e.id then { x with title := t }
          else x))).map (fun ev => ev.id)).Nodup
      rw [List.map_map]
      have heq : st.cal.map ((fun ev => ev.id) ∘
            (fun x => if x.id == e.id then { x with title := t } else x))
          = st.cal.map (fun ev => ev.id) := by
        apply List.map_congr_left
        intro x _
        by_cases hid : (x.id == e.id) = true
        · simp [Function.comp, hid]
        · simp [Function.comp, hid]
      rw [heq]
      exact h1
    · intro ev hev
      obtain ⟨x, hx, hfx⟩ := List.mem_map.mp hev
      have hlt := h2 x hx
      by_cases hid : (x.id == e.id) = true
      · rw [if_pos hid] at hfx
        rw [← hfx]
        exact hlt
      · rw [if_neg hid] at hfx
        rw [← hfx]
        exact hlt
  · rw [if_neg hc]
    exact h

theorem foldl_idsOk {β : Type} (g : CalSt → β → CalSt)
    (hg : ∀ s x, IdsOk s → IdsOk (g s x)) :
    ∀ (l : List β) (st : CalSt), IdsOk st → IdsOk (l.foldl g st) := by
  intro l
  induction l with
  | nil => intro st h; exact h
  | cons x xs ih => intro st h; exact ih (g st x) (hg st x h)

/-! ### Sync idempotence (C5) infrastructure: generic filter lemmas -/

theorem filter_and_of_imp {α : Type} (p q : α → Bool) (l : List α)
    (h : ∀ x ∈ l, p x = true → q x = true) :
    l.filter (fun a => p a && q a) = l.filter p := by
  apply List.filter_congr
  intro x hx
  by_cases hp : p x = true
  · simp [hp, h x hx hp]
  · have hp2 : p x = false := by
      cases hpx : p x
      · rfl
      · exact absurd hpx hp
    simp [hp2]

theorem filter_sub_of_imp {α : Type} (p q : α → Bool) (l : List α)
    (h : ∀ x ∈ l, p x = true → q x = true) :
    (l.filter q).filter p = l.filter p := by
  rw [List.filter_filter]
  exact filter_and_of_imp p q l h

theorem filter_append_of_neg {α : Type} (p : α → Bool) (l₁ l₂ : List α)
    (h : ∀ x ∈ l₂, p x = false) : (l₁ ++ l₂).filter p = l₁.filter p := by
  rw [List.filter_append]
  have h2 : l₂.filter p = [] :=
    List.filter_eq_nil_iff.mpr (fun a ha => by simp [h a ha])
  rw [h2, List.append_nil]

theorem filter_map_of_fix {α : Type} (p : α → Bool) (f : α → α) (l : List α)
    (h : ∀ x ∈ l, p (f x) = p x ∧ (p x = true → f x = x)) :
    (l.map f).filter p = l.filter p := by
  induction l with
  | nil => rfl
  | cons x xs ih =>
      obtain ⟨h1, h2⟩ := h x (List.mem_cons_self x xs)
      have hrest : ∀ y ∈ xs, p (f y) = p y ∧ (p y = true → f y = y) :=
        fun y hy => h y (List.mem_cons_of_mem x hy)
      rw [List.map_cons, List.filter_cons, List.filter_cons]
      by_cases hp : p x = true
      · rw [if_pos (by rw [h1, hp]), if_pos hp, h2 hp, ih hrest]
      · have hp2 : p x = false := by
          cases hpx : p x
          · rfl
          · exact absurd hpx hp
        rw [if_neg (by rw [h1, hp2]; simp), if_neg (by rw [hp2]; simp), ih hrest]

theorem event_id_inj {cal : List Event}
    (hnd : (cal.map (fun ev => ev.id)).Nodup)
    {x y : Event} (hx : x ∈ cal) (hy : y ∈ cal) (h : x.id = y.id) : x = y :=
  List.inj_on_of_nodup_map hnd hx hy h

theorem filter_delete_eq (p : Event → Bool) (cal del : List Event)
    (hnd : (cal.map (fun ev => ev.id)).Nodup)
    (hdel : ∀ e ∈ del, e ∈ cal ∧ p e = false) :
    (cal.filter (fun x => !(del.any fun e => x.id == e.id))).filter p
      = cal.filter p := by
  apply filter_sub_of_imp
  intro x hx hpx
  have hany : (del.any fun e => x.id == e.id) = false := by
    cases hb : (del.any fun e => x.id == e.id)
    · rfl
    · obtain ⟨e, he, hide⟩ := List.any_eq_true.mp hb
      obtain ⟨hecal, hpe⟩ := hdel e he
      have hxe : x = e := event_id_inj hnd hx hecal (eq_of_beq hide)
      rw [hxe, hpe] at hpx
      cases hpx
  rw [hany]
  rfl

theorem filter_retitle_eq (p : Event → Bool) (cal : List Event) (k : Event)
    (t : Title) (hnd : (cal.map (fun ev => ev.id)).Nodup) (hk : k ∈ cal)
    (hp1 : p k = false) (hp2 : p { k with title := t } = false) :
    (cal.map fun x => if x.id == k.id then { x with title := t } else x).filter p
      = cal.filter p := by
  apply filter_map_of_fix
  intro x hx
  by_cases hid : (x.id == k.id) = true
  · have hxk : x = k := event_id_inj hnd hx hk (eq_of_beq hid)
    subst hxk
    constructor
    · rw [if_pos hid, hp1, hp2]
    · intro hpx
      rw [hp1] at hpx
      cases hpx
  · constructor
    · rw [if_neg hid]
    · intro _
      rw [if_neg hid]

/-! ### Sync idempotence (C5) infrastructure: snapshot membership -/

theorem mem_sumSnap {cal : List Event} {s e d : Nat} {ev : Event} :
    ev ∈ sumSnap cal s e d
      ↔ ev ∈ cal ∧ s ≤ ev.date ∧ ev.date ≤ e ∧ ev.date = d
          ∧ ev.title.hasSumTag = true := by
  unfold sumSnap
  simp only [List.mem_append, List.mem_filter, Bool.and_eq_true,
    decide_eq_true_eq, beq_iff_eq]
  constructor
  · rintro (⟨⟨hm, ⟨h1, h2⟩, h3⟩, h4⟩ | ⟨⟨hm, ⟨h1, h2⟩, h3⟩, h4, h5⟩)
    · exact ⟨hm, h1, h2, h4, h3⟩
    · exact ⟨hm, h1, h2, h4, h5⟩
  · rintro ⟨hm, h1, h2, h3, h4⟩
    exact Or.inl ⟨⟨hm, ⟨h1, h2⟩, h4⟩, h3⟩

theorem mem_apptSnap {cal : List Event} {s e d : Nat} {ev : Event} :
    ev ∈ apptSnap cal s e d
      ↔ ev ∈ cal ∧ s ≤ ev.date ∧ ev.date ≤ e ∧ ev.date = d
          ∧ ev.title.hasApptTag = true ∧ ev.title.hasSumTag = false := by
  unfold apptSnap
  simp only [List.mem_filter, Bool.and_eq_true, decide_eq_true_eq,
    beq_iff_eq, Bool.not_eq_true']
  constructor
  · rintro ⟨⟨hm, ⟨h1, h2⟩, h3⟩, h4, h5⟩
    exact ⟨hm, h1, h2, h4, h3, h5⟩
  · rintro ⟨hm, h1, h2, h3, h4, h5⟩
    exact ⟨⟨hm, ⟨h1, h2⟩, h4⟩, h3, h5⟩

theorem mem_searchByTitle {cal : List Event} {d : Nat} {t : Title}
    {ev : Event} :
    ev ∈ searchByTitle cal d t ↔ ev ∈ cal ∧ ev.date = d ∧ ev.title = t := by
  unfold searchByTitle
  simp only [List.mem_filter, Bool.and_eq_true, beq_iff_eq, and_assoc]

/-! ### Sync idempotence (C5) infrastructure: delete folds -/

theorem delete_foldl_spec (l : List Event) :
    ∀ st : CalSt,
      ((l.foldl (fun s' e => safeDeleteEvent e s') st).blocked = false) →
      (l.foldl (fun s' e => safeDeleteEvent e s') st).cal
          = st.cal.filter (fun x => !(l.any fun e => x.id == e.id))
        ∧ (l.foldl (fun s' e => safeDeleteEvent e s') st).nextId = st.nextId := by
  induction l with
  | nil =>
      intro st _
      constructor
      · simp
      · rfl
  | cons e rest ih =>
      intro st h
      simp only [List.foldl_cons] at h ⊢
      have h1 : (safeDeleteEvent e st).blocked = false :=
        foldl_blocked_mono _ (fun s x => safeDeleteEvent_blocked_mono x s)
          rest (safeDeleteEvent e st) h
      obtain ⟨ihc, ihn⟩ := ih (safeDeleteEvent e st) h
      rw [safeDeleteEvent_cal e st h1] at ihc
      rw [safeDeleteEvent_nextId e st h1] at ihn
      refine ⟨?_, ihn⟩
      rw [ihc, List.filter_filter]
      apply List.filter_congr
      intro x _
      simp [List.any_cons, Bool.not_or, Bool.and_comm]

theorem nested_delete_spec (snap : List Event) (ts : List Title) :
    ∀ st : CalSt,
      ((ts.foldl (fun s' t => (snap.filter fun e => e.title == t).foldl
          (fun s'' e => safeDeleteEvent e s'') s') st).blocked = false) →
      (ts.foldl (fun s' t => (snap.filter fun e => e.title == t).foldl
          (fun s'' e => safeDeleteEvent e s'') s') st).cal
          = st.cal.filter (fun x => !(ts.any fun t => snap.any fun e =>
              (e.title == t) && (x.id == e.id)))
        ∧ (ts.foldl (fun s' t => (snap.filter fun e => e.title == t).foldl
            (fun s'' e => safeDeleteEvent e s'') s') st).nextId = st.nextId := by
  induction ts with
  | nil =>
      intro st _
      constructor
      · simp
      · rfl
  | cons t ts ih =>
      intro st h
      simp only [List.foldl_cons] at h ⊢
      set st1 := (snap.filter fun e => e.title == t).foldl
        (fun s'' e => safeDeleteEvent e s'') st with hst1
      have h1 : st1.blocked = false :=
        foldl_blocked_mono _
          (fun s x hb => foldl_blocked_mono _
            (fun s2 y => safeDeleteEvent_blocked_mono y s2) _ s hb)
          ts st1 h
      obtain ⟨ihc, ihn⟩ := ih st1 h
      obtain ⟨hc1, hn1⟩ := delete_foldl_spec (snap.filter fun e => e.title == t)
        st h1
      rw [hc1] at ihc
      rw [hn1] at ihn
      refine ⟨?_, ihn⟩
      rw [ihc, List.filter_filter]
      apply List.filter_congr
      intro x _
      have hin : ((snap.filter fun e => e.title == t).any fun e =>
          x.id == e.id) = (snap.any fun e => (e.title == t) && (x.id == e.id)) := by
        rw [Bool.eq_iff_iff]
        simp only [List.any_eq_true, List.mem_filter, Bool.and_eq_true]
        constructor
        · rintro ⟨e, ⟨he, het⟩, hid⟩
          exact ⟨e, he, het, hid⟩
        · rintro ⟨e, he, het, hid⟩
          exact ⟨e, ⟨he, het⟩, hid⟩
      rw [hin]
      simp [List.any_cons, Bool.not_or, Bool.and_comm]

/-! ### Sync idempotence (C5) infrastructure: range and title shape -/

theorem rangeDates_nodup (s e : Nat) : (rangeDates s e).Nodup := by
  unfold rangeDates
  exact List.Nodup.map (fun a b h => by omega) (List.nodup_range _)

theorem rangeDates_bounds {s e d : Nat} (h : d ∈ rangeDates s e) :
    s ≤ d ∧ d ≤ e := by
  unfold rangeDates at h
  obtain ⟨i, hi, rfl⟩ := List.mem_map.mp h
  have := List.mem_range.mp hi
  omega

theorem dedupScan_shape (cat : String) :
    ∀ (rows : List RespRow) (seen : List (String × String × String × String))
      (t : Title), t ∈ (dedupScan cat seen rows).1 →
      t.hasApptTag = true ∧ t.hasSumTag = false := by
  intro rows
  induction rows with
  | nil =>
      intro seen t h
      simp [dedupScan] at h
  | cons r rest ih =>
      intro seen t h
      rw [dedupScan_cons] at h
      by_cases hc : seen.contains (identKey r) = true
      · rw [if_pos hc] at h
        exact ih seen t h
      · rw [if_neg hc] at h
        rcases List.mem_cons.mp h with ht | h2
        · subst ht
          exact ⟨rfl, rfl⟩
        · exact ih _ t h2

theorem getExpectedGo_shape (d : Nat) :
    ∀ (sheets : List RespSheet)
      (seen : List (String × String × String × String)) (t : Title),
      t ∈ getExpectedGo d seen sheets →
      t.hasApptTag = true ∧ t.hasSumTag = false := by
  intro sheets
  induction sheets with
  | nil =>
      intro seen t h
      simp [getExpectedGo] at h
  | cons sh rest ih =>
      intro seen t h
      have hstep : getExpectedGo d seen (sh :: rest)
          = (dedupScan sh.name seen ((sh.rows.filter (fun r => r.date == d)).insertionSort
              (fun a b => b.ts ≤ a.ts))).1
            ++ getExpectedGo d
              (dedupScan sh.name seen ((sh.rows.filter (fun r => r.date == d)).insertionSort
                (fun a b => b.ts ≤ a.ts))).2 rest := rfl
      rw [hstep] at h
      rcases List.mem_append.mp h with h1 | h2
      · exact dedupScan_shape sh.name _ seen t h1
      · exact ih _ t h2

theorem mem_dedupTitlesAux (t : Title) :
    ∀ (l : List Title) (seen : List Title),
      t ∈ dedupTitlesAux seen l ↔ (t ∈ l ∧ t ∉ seen) := by
  intro l
  induction l with
  | nil =>
      intro seen
      simp [dedupTitlesAux]
  | cons a rest ih =>
      intro seen
      by_cases hc : seen.contains a = true
      · have ha : a ∈ seen := by simpa using hc
        rw [show dedupTitlesAux seen (a :: rest)
            = dedupTitlesAux seen rest from by rw [dedupTitlesAux, if_pos hc]]
        rw [ih seen]
        constructor
        · rintro ⟨h1, h2⟩
          exact ⟨List.mem_cons_of_mem _ h1, h2⟩
        · rintro ⟨h1, h2⟩
          rcases List.mem_cons.mp h1 with rfl | h3
          · exact absurd ha h2
          · exact ⟨h3, h2⟩
      · have ha : a ∉ seen := by simpa using hc
        rw [show dedupTitlesAux seen (a :: rest)
            = a :: dedupTitlesAux (a :: seen) rest from by
          rw [dedupTitlesAux, if_neg hc]]
        rw [List.mem_cons, ih (a :: seen)]
        constructor
        · rintro (rfl | ⟨h1, h2⟩)
          · exact ⟨List.mem_cons_self _ _, ha⟩
          · refine ⟨List.mem_cons_of_mem _ h1, fun hs => h2 (List.mem_cons_of_mem _ hs)⟩
        · rintro ⟨h1, h2⟩
          by_cases ht : t = a
          · exact Or.inl ht
          · right
            refine ⟨?_, fun hs => ?_⟩
            · rcases List.mem_cons.mp h1 with h3 | h3
              · exact absurd h3 ht
              · exact h3
            · rcases List.mem_cons.mp hs with h4 | h4
              · exact ht h4
              · exact h2 h4

theorem mem_dedupTitles {t : Title} {l : List Title} :
    t ∈ dedupTitles l ↔ t ∈ l := by
  unfold dedupTitles
  rw [mem_dedupTitlesAux]
  simp

/-! ### Sync idempotence (C5) infrastructure: snapshot preservation -/

theorem searchByTitle_filter_pres (cal : List Event) (q : Event → Bool)
    (d0 : Nat) (t0 : Title)
    (h : ∀ x ∈ cal, x.date = d0 → x.title = t0 → q x = true) :
    searchByTitle (cal.filter q) d0 t0 = searchByTitle cal d0 t0 := by
  unfold searchByTitle
  apply filter_sub_of_imp
  intro x hx hp
  simp only [Bool.and_eq_true, beq_iff_eq] at hp
  exact h x hx hp.1 hp.2

theorem sumSnap_filter_pres (cal : List Event) (q : Event → Bool)
    (s e d0 : Nat)
    (h : ∀ x ∈ cal, x.date = d0 → x.title.hasSumTag = true → q x = true) :
    sumSnap (cal.filter q) s e d0 = sumSnap cal s e d0 := by
  unfold sumSnap
  rw [List.filter_filter, List.filter_filter, List.filter_filter,
    List.filter_filter, List.filter_filter, List.filter_filter]
  congr 1
  · apply filter_and_of_imp
    intro x hx hp
    simp only [Bool.and_eq_true, decide_eq_true_eq, beq_iff_eq] at hp
    exact h x hx hp.1 hp.2.2
  · apply filter_and_of_imp
    intro x hx hp
    simp only [Bool.and_eq_true, decide_eq_true_eq, beq_iff_eq] at hp
    exact h x hx hp.1.1 hp.1.2

theorem apptSnap_filter_pres (cal : List Event) (q : Event → Bool)
    (s e d0 : Nat)
    (h : ∀ x ∈ cal, x.date = d0 → x.title.hasApptTag = true →
      x.title.hasSumTag = false → q x = true) :
    apptSnap (cal.filter q) s e d0 = apptSnap cal s e d0 := by
  unfold apptSnap
  rw [List.filter_filter, List.filter_filter, List.filter_filter]
  apply filter_and_of_imp
  intro x hx hp
  simp only [Bool.and_eq_true, decide_eq_true_eq, beq_iff_eq,
    Bool.not_eq_true'] at hp
  exact h x hx hp.1.1 hp.2.2 hp.1.2

theorem searchByTitle_append_pres (cal news : List Event) (d0 : Nat)
    (t0 : Title) (h : ∀ x ∈ news, x.date = d0 → x.title = t0 → False) :
    searchByTitle (cal ++ news) d0 t0 = searchByTitle cal d0 t0 := by
  unfold searchByTitle
  apply filter_append_of_neg
  intro x hx
  apply Bool.eq_false_iff.mpr
  intro hp
  simp only [Bool.and_eq_true, beq_iff_eq] at hp
  exact h x hx hp.1 hp.2

theorem sumSnap_append_pres (cal news : List Event) (s e d0 : Nat)
    (h : ∀ x ∈ news, x.date = d0 → x.title.hasSumTag = true → False) :
    sumSnap (cal ++ news) s e d0 = sumSnap cal s e d0 := by
  unfold sumSnap
  rw [List.filter_filter, List.filter_filter, List.filter_filter,
    List.filter_filter]
  congr 1
  · apply filter_append_of_neg
    intro x hx
    apply Bool.eq_false_iff.mpr
    intro hp
    simp only [Bool.and_eq_true, decide_eq_true_eq, beq_iff_eq] at hp
    exact h x hx hp.1 hp.2.2
  · apply filter_append_of_neg
    intro x hx
    apply Bool.eq_false_iff.mpr
    intro hp
    simp only [Bool.and_eq_true, decide_eq_true_eq, beq_iff_eq] at hp
    exact h x hx hp.1.1 hp.1.2

theorem apptSnap_append_pres (cal news : List Event) (s e d0 : Nat)
    (h : ∀ x ∈ news, x.date = d0 → x.title.hasApptTag = true →
      x.title.hasSumTag = false → False) :
    apptSnap (cal ++ news) s e d0 = apptSnap cal s e d0 := by
  unfold apptSnap
  rw [List.filter_filter, List.filter_filter]
  apply filter_append_of_neg
  intro x hx
  apply Bool.eq_false_iff.mpr
  intro hp
  simp only [Bool.and_eq_true, decide_eq_true_eq, beq_iff_eq,
    Bool.not_eq_true'] at hp
  exact h x hx hp.1.1 hp.2.2 hp.1.2

theorem searchByTitle_retitle_pres (cal : List Event) (k : Event) (t : Title)
    (d0 : Nat) (t0 : Title) (hnd : (cal.map (fun ev => ev.id)).Nodup)
    (hk : k ∈ cal)
    (h1 : k.date = d0 → k.title = t0 → False)
    (h2 : k.date = d0 → t = t0 → False) :
    searchByTitle
        (cal.map fun x => if x.id == k.id then { x with title := t } else x)
        d0 t0
      = searchByTitle cal d0 t0 := by
  unfold searchByTitle
  apply filter_retitle_eq _ _ _ _ hnd hk
  · apply Bool.eq_false_iff.mpr
    intro hp
    simp only [Bool.and_eq_true, beq_iff_eq] at hp
    exact h1 hp.1 hp.2
  · apply Bool.eq_false_iff.mpr
    intro hp
    simp only [Bool.and_eq_true, beq_iff_eq] at hp
    exact h2 hp.1 hp.2

theorem sumSnap_retitle_pres (cal : List Event) (k : Event) (t : Title)
    (s e d0 : Nat) (hnd : (cal.map (fun ev => ev.id)).Nodup) (hk : k ∈ cal)
    (h1 : k.date = d0 → k.title.hasSumTag = true → False)
    (h2 : k.date = d0 → t.hasSumTag = true → False) :
    sumSnap
        (cal.map fun x => if x.id == k.id then { x with title := t } else x)
        s e d0
      = sumSnap cal s e d0 := by
  unfold sumSnap
  rw [List.filter_filter, List.filter_filter, List.filter_filter,
    List.filter_filter]
  congr 1
  · apply filter_retitle_eq _ _ _ _ hnd hk
    · apply Bool.eq_false_iff.mpr
      intro hp
      simp only [Bool.and_eq_true, decide_eq_true_eq, beq_iff_eq] at hp
      exact h1 hp.1 hp.2.2
    · apply Bool.eq_false_iff.mpr
      intro hp
      simp only [Bool.and_eq_true, decide_eq_true_eq, beq_iff_eq] at hp
      exact h2 hp.1 hp.2.2
  · apply filter_retitle_eq _ _ _ _ hnd hk
    · apply Bool.eq_false_iff.mpr
      intro hp
      simp only [Bool.and_eq_true, decide_eq_true_eq, beq_iff_eq] at hp
      exact h1 hp.1.1 hp.1.2
    · apply Bool.eq_false_iff.mpr
      intro hp
      simp only [Bool.and_eq_true, decide_eq_true_eq, beq_iff_eq] at hp
      exact h2 hp.1.1 hp.1.2

theorem apptSnap_retitle_pres (cal : List Event) (k : Event) (t : Title)
    (s e d0 : Nat) (hnd : (cal.map (fun ev => ev.id)).Nodup) (hk : k ∈ cal)
    (h1 : k.date = d0 → k.title.hasApptTag = true →
      k.title.hasSumTag = false → False)
    (h2 : k.date = d0 → t.hasApptTag = true → t.hasSumTag = false → False) :
    apptSnap
        (cal.map fun x => if x.id == k.id then { x with title := t } else x)
        s e d0
      = apptSnap cal s e d0 := by
  unfold apptSnap
  rw [List.filter_filter, List.filter_filter]
  apply filter_retitle_eq _ _ _ _ hnd hk
  · apply Bool.eq_false_iff.mpr
    intro hp
    simp only [Bool.and_eq_true, decide_eq_true_eq, beq_iff_eq,
      Bool.not_eq_true'] at hp
    exact h1 hp.1.1 hp.2.2 hp.1.2
  · apply Bool.eq_false_iff.mpr
    intro hp
    simp only [Bool.and_eq_true, decide_eq_true_eq, beq_iff_eq,
      Bool.not_eq_true'] at hp
    exact h2 hp.1.1 hp.2.2 hp.1.2

/-! ### Sync idempotence (C5) infrastructure: the missing-title create fold -/

theorem apptCreate_fold (d : Nat) (ts : List Title) :
    ∀ (base news0 : List Event) (st : CalSt),
      st.cal = base ++ news0 →
      (∀ t ∈ ts, searchByTitle base d t = []) →
      (∀ ev ∈ news0, ev.date = d) →
      ((ts.foldl (fun s' t =>
          if (searchByTitle s'.cal d t).isEmpty then safeCreateEvent d t s'
          else s') st).blocked = false) →
      ∃ news : List Event,
        (ts.foldl (fun s' t =>
            if (searchByTitle s'.cal d t).isEmpty then safeCreateEvent d t s'
            else s') st).cal = base ++ news
        ∧ news0 ⊆ news
        ∧ (∀ ev ∈ news, ev.date = d ∧ (ev ∈ news0 ∨ ev.title ∈ ts))
        ∧ (∀ t ∈ ts, ∃ ev ∈ news, ev.title = t) := by
  induction ts with
  | nil =>
      intro base news0 st hcal _ hdates _
      exact ⟨news0, hcal, fun ev hev => hev,
        fun ev hev => ⟨hdates ev hev, Or.inl hev⟩, fun t ht => absurd ht (by simp)⟩
  | cons t ts ih =>
      intro base news0 st hcal hsearch hdates h
      simp only [List.foldl_cons] at h ⊢
      have hsearch2 : ∀ t2 ∈ ts, searchByTitle base d t2 = [] :=
        fun t2 ht2 => hsearch t2 (List.mem_cons_of_mem t ht2)
      by_cases hemp : (searchByTitle st.cal d t).isEmpty = true
      · rw [if_pos hemp] at h ⊢
        have hb1 : (safeCreateEvent d t st).blocked = false :=
          foldl_blocked_mono _
            (fun s x hb => by
              by_cases he : (searchByTitle s.cal d x).isEmpty = true
              · rw [if_pos he] at hb
                exact safeCreateEvent_blocked_mono d x s hb
              · rw [if_neg he] at hb
                exact hb)
            ts (safeCreateEvent d t st) h
        have hcal1 : (safeCreateEvent d t st).cal
            = base ++ (news0 ++ [⟨st.nextId, d, t⟩]) := by
          rw [safeCreateEvent_cal d t st hb1, hcal, List.append_assoc]
        have hdates1 : ∀ ev ∈ news0 ++ [(⟨st.nextId, d, t⟩ : Event)],
            ev.date = d := by
          intro ev hev
          rcases List.mem_append.mp hev with h0 | h1
          · exact hdates ev h0
          · simp only [List.mem_singleton] at h1
            subst h1
            rfl
        obtain ⟨news, hc, hsub, hprops, hex⟩ :=
          ih base (news0 ++ [⟨st.nextId, d, t⟩]) (safeCreateEvent d t st)
            hcal1 hsearch2 hdates1 h
        refine ⟨news, hc, ?_, ?_, ?_⟩
        · exact fun ev hev => hsub (List.mem_append_left _ hev)
        · intro ev hev
          obtain ⟨hd2, hcase⟩ := hprops ev hev
          refine ⟨hd2, ?_⟩
          rcases hcase with hin | ht2
          · rcases List.mem_append.mp hin with h0 | hnew
            · exact Or.inl h0
            · simp only [List.mem_singleton] at hnew
              subst hnew
              exact Or.inr (List.mem_cons_self t ts)
          · exact Or.inr (List.mem_cons_of_mem t ht2)
        · intro t2 ht2
          rcases List.mem_cons.mp ht2 with rfl | ht3
          · exact ⟨⟨st.nextId, d, t2⟩,
              hsub (List.mem_append_right _ (List.mem_singleton_self _)), rfl⟩
          · exact hex t2 ht3
      · rw [if_neg hemp] at h ⊢
        have hne : searchByTitle st.cal d t ≠ [] := by
          intro hnil
          rw [hnil] at hemp
          exact hemp rfl
        obtain ⟨ev0, hev0⟩ : ∃ ev, ev ∈ searchByTitle st.cal d t := by
          cases hsp : searchByTitle st.cal d t with
          | nil => exact absurd hsp hne
          | cons a l => exact ⟨a, hsp ▸ List.mem_cons_self a l⟩
        obtain ⟨hmem, hdate0, htitle0⟩ := mem_searchByTitle.mp hev0
        rw [hcal] at hmem
        have hev0n : ev0 ∈ news0 := by
          rcases List.mem_append.mp hmem with hb0 | hn0
          · have h2 : ev0 ∈ searchByTitle base d t :=
              mem_searchByTitle.mpr ⟨hb0, hdate0, htitle0⟩
            rw [hsearch t (List.mem_cons_self _ _)] at h2
            cases h2
          · exact hn0
        obtain ⟨news, hc, hsub, hprops, hex⟩ :=
          ih base news0 st hcal hsearch2 hdates h
        refine ⟨news, hc, hsub, ?_, ?_⟩
        · intro ev hev
          obtain ⟨hd2, hcase⟩ := hprops ev hev
          refine ⟨hd2, ?_⟩
          rcases hcase with h0 | ht2
          · exact Or.inl h0
          · exact Or.inr (List.mem_cons_of_mem t ht2)
        · intro t2 ht2
          rcases List.mem_cons.mp ht2 with rfl | ht3
          · exact ⟨ev0, hsub hev0n, htitle0⟩
          · exact hex t2 ht3

/-! ### Sync idempotence (C5): the appointment step establishes its fixed
point -/

theorem apptStep_establishes (responses : List RespSheet) (s e d : Nat)
    (st : CalSt) (hids : IdsOk st) (hsd : s ≤ d) (hde : d ≤ e)
    (hnb : (syncAppointmentEvents responses d (apptSnap st.cal s e d)
      st).blocked = false) :
    IdsOk (syncAppointmentEvents responses d (apptSnap st.cal s e d) st)
    ∧ ApptSettled responses s e d
        (syncAppointmentEvents responses d (apptSnap st.cal s e d) st).cal
    ∧ (∀ d0 t0, d0 ≠ d →
        searchByTitle
            (syncAppointmentEvents responses d (apptSnap st.cal s e d) st).cal
            d0 t0
          = searchByTitle st.cal d0 t0)
    ∧ (∀ t0, t0.hasSumTag = true →
        searchByTitle
            (syncAppointmentEvents responses d (apptSnap st.cal s e d) st).cal
            d t0
          = searchByTitle st.cal d t0)
    ∧ (∀ d0,
        sumSnap
            (syncAppointmentEvents responses d (apptSnap st.cal s e d) st).cal
            s e d0
          = sumSnap st.cal s e d0)
    ∧ (∀ d0, d0 ≠ d →
        apptSnap
            (syncAppointmentEvents responses d (apptSnap st.cal s e d) st).cal
            s e d0
          = apptSnap st.cal s e d0) := by
  obtain ⟨hnd0, hlt0⟩ := hids
  set snap := apptSnap st.cal s e d with hsnap
  set expected := getExpectedAppointmentsForDate responses d with hexp
  set existingTitles := dedupTitles (snap.map (fun e2 => e2.title)) with hext
  set missing := expected.filter (fun t => !(existingTitles.contains t))
    with hmiss
  set extra := existingTitles.filter (fun t => !(expected.contains t))
    with hextra
  have key : syncAppointmentEvents responses d snap st
      = extra.foldl (fun s' t => (snap.filter fun e2 => e2.title == t).foldl
          (fun s'' e2 => safeDeleteEvent e2 s'') s')
        (missing.foldl (fun s' t =>
          if (searchByTitle s'.cal d t).isEmpty then safeCreateEvent d t s'
          else s') st) := rfl
  rw [key] at hnb ⊢
  set st1 := missing.foldl (fun s' t =>
    if (searchByTitle s'.cal d t).isEmpty then safeCreateEvent d t s'
    else s') st with hst1
  set stR := extra.foldl (fun s' t => (snap.filter fun e2 => e2.title == t).foldl
    (fun s'' e2 => safeDeleteEvent e2 s'') s') st1 with hstR
  have hb1 : st1.blocked = false :=
    foldl_blocked_mono _
      (fun a b hb => foldl_blocked_mono _
        (fun a2 b2 => safeDeleteEvent_blocked_mono b2 a2) _ a hb)
      extra st1 hnb
  have hshape : ∀ t ∈ missing, t.hasApptTag = true ∧ t.hasSumTag = false := by
    intro t ht
    exact getExpectedGo_shape d responses [] t (List.mem_filter.mp ht).1
  have hmiss_not : ∀ t ∈ missing, existingTitles.contains t = false := by
    intro t ht
    have h2 := (List.mem_filter.mp ht).2
    cases hb : existingTitles.contains t
    · rfl
    · rw [hb] at h2
      cases h2
  have hsnapP : ∀ e2 ∈ snap, e2 ∈ st.cal ∧ e2.date = d
      ∧ e2.title.hasApptTag = true ∧ e2.title.hasSumTag = false := by
    intro e2 he2
    obtain ⟨hm, _, _, hd2, hA, hS⟩ := mem_apptSnap.mp he2
    exact ⟨hm, hd2, hA, hS⟩
  have hsearchM : ∀ t ∈ missing, searchByTitle st.cal d t = [] := by
    intro t ht
    obtain ⟨hA, hS⟩ := hshape t ht
    unfold searchByTitle
    rw [List.filter_eq_nil_iff]
    intro ev hev hp
    simp only [Bool.and_eq_true, beq_iff_eq] at hp
    obtain ⟨hd2, ht2⟩ := hp
    have hmemA : ev ∈ snap := mem_apptSnap.mpr
      ⟨hev, by rw [hd2]; exact hsd, by rw [hd2]; exact hde, hd2,
        by rw [ht2]; exact hA, by rw [ht2]; exact hS⟩
    have htm : t ∈ existingTitles :=
      mem_dedupTitles.mpr (List.mem_map.mpr ⟨ev, hmemA, ht2⟩)
    have hct : existingTitles.contains t = true := by simpa using htm
    rw [hmiss_not t ht] at hct
    cases hct
  obtain ⟨news, hc1, _, hnprops, hnex⟩ :=
    apptCreate_fold d missing st.cal [] st (by simp) hsearchM
      (by intro ev hev; cases hev) hb1
  have hids1 : IdsOk st1 :=
    foldl_idsOk _
      (fun s2 t hI => by
        by_cases he2 : (searchByTitle s2.cal d t).isEmpty = true
        · rw [if_pos he2]
          exact idsOk_safeCreateEvent d t s2 hI
        · rw [if_neg he2]
          exact hI)
      missing st ⟨hnd0, hlt0⟩
  have hnd1 : (st1.cal.map (fun ev => ev.id)).Nodup := hids1.1
  have hnews : ∀ ev ∈ news, ev.date = d ∧ ev.title.hasApptTag = true
      ∧ ev.title.hasSumTag = false ∧ ev.title ∈ missing := by
    intro ev hev
    obtain ⟨hd2, hcase⟩ := hnprops ev hev
    rcases hcase with h0 | ht2
    · cases h0
    · exact ⟨hd2, (hshape _ ht2).1, (hshape _ ht2).2, ht2⟩
  have hdisj : ∀ a ∈ st.cal, ∀ b ∈ news, a.id ≠ b.id := by
    have hx := hnd1
    rw [hc1, List.map_append, List.nodup_append] at hx
    obtain ⟨_, _, hdisj0⟩ := hx
    intro a ha b hb heq
    exact hdisj0 (List.mem_map.mpr ⟨a, ha, rfl⟩)
      (List.mem_map.mpr ⟨b, hb, heq.symm⟩)
  obtain ⟨hc2, _⟩ := nested_delete_spec snap extra st1 hnb
  have hidsR : IdsOk stR :=
    foldl_idsOk _
      (fun s2 t hI => foldl_idsOk _
        (fun s3 e3 hI2 => idsOk_safeDeleteEvent e3 s3 hI2) _ s2 hI)
      extra st1 hids1
  have hdel_id : ∀ x ∈ st1.cal,
      (!(extra.any fun t => snap.any fun e2 =>
        (e2.title == t) && (x.id == e2.id))) = false →
      x.date = d ∧ x.title.hasSumTag = false ∧ x.title.hasApptTag = true := by
    intro x hx hq
    have hany : (extra.any fun t => snap.any fun e2 =>
        (e2.title == t) && (x.id == e2.id)) = true := by
      cases hb : (extra.any fun t => snap.any fun e2 =>
          (e2.title == t) && (x.id == e2.id))
      · rw [hb] at hq
        simp at hq
      · rfl
    obtain ⟨t, _, hin⟩ := List.any_eq_true.mp hany
    obtain ⟨e2, he2, hconj⟩ := List.any_eq_true.mp hin
    rw [Bool.and_eq_true] at hconj
    obtain ⟨hmem2, hd2, hA2, hS2⟩ := hsnapP e2 he2
    have hxe : x = e2 := event_id_inj hnd1 hx
      (by rw [hc1]; exact List.mem_append_left _ hmem2) (eq_of_beq hconj.2)
    rw [hxe]
    exact ⟨hd2, hS2, hA2⟩
  have hsettle : ∀ t ∈ expected, ∃ ev ∈ apptSnap stR.cal s e d,
      ev.title = t := by
    intro t ht
    by_cases hex2 : existingTitles.contains t = true
    · have htm : t ∈ existingTitles := by simpa using hex2
      obtain ⟨e2, he2, hte⟩ := List.mem_map.mp (mem_dedupTitles.mp htm)
      obtain ⟨hmem2, hd2, hA2, hS2⟩ := hsnapP e2 he2
      have hkeep : (!(extra.any fun t2 => snap.any fun e3 =>
          (e3.title == t2) && (e2.id == e3.id))) = true := by
        cases hb : (extra.any fun t2 => snap.any fun e3 =>
            (e3.title == t2) && (e2.id == e3.id))
        · rfl
        · exfalso
          obtain ⟨t2, ht2, hin⟩ := List.any_eq_true.mp hb
          obtain ⟨e3, he3, hconj⟩ := List.any_eq_true.mp hin
          rw [Bool.and_eq_true] at hconj
          have he3m := (hsnapP e3 he3).1
          have : e2 = e3 := event_id_inj hnd0 hmem2 he3m (eq_of_beq hconj.2)
          have ht2e : t2 = t := by
            rw [← hte, this]
            exact (eq_of_beq hconj.1).symm
          have hce : expected.contains t2 = false := by
            have h4 := (List.mem_filter.mp ht2).2
            cases hb2 : expected.contains t2
            · rfl
            · rw [hb2] at h4
              cases h4
          rw [ht2e] at hce
          have : expected.contains t = true := by simpa using ht
          rw [this] at hce
          cases hce
      have hin : e2 ∈ stR.cal := by
        rw [hc2]
        exact List.mem_filter.mpr
          ⟨by rw [hc1]; exact List.mem_append_left _ hmem2, hkeep⟩
      exact ⟨e2, mem_apptSnap.mpr ⟨hin, by rw [hd2]; exact hsd,
        by rw [hd2]; exact hde, hd2, hA2, hS2⟩, hte⟩
    · have hex3 : existingTitles.contains t = false := by
        cases hb : existingTitles.contains t
        · rfl
        · exact absurd hb hex2
      obtain ⟨ev, hevn, hevt⟩ := hnex t
        (List.mem_filter.mpr ⟨ht, by rw [hex3]; rfl⟩)
      obtain ⟨hdn, hAn, hSn, _⟩ := hnews ev hevn
      have hkeep : (!(extra.any fun t2 => snap.any fun e3 =>
          (e3.title == t2) && (ev.id == e3.id))) = true := by
        cases hb : (extra.any fun t2 => snap.any fun e3 =>
            (e3.title == t2) && (ev.id == e3.id))
        · rfl
        · exfalso
          obtain ⟨t2, _, hin⟩ := List.any_eq_true.mp hb
          obtain ⟨e3, he3, hconj⟩ := List.any_eq_true.mp hin
          rw [Bool.and_eq_true] at hconj
          exact hdisj e3 (hsnapP e3 he3).1 ev hevn (eq_of_beq hconj.2).symm
      have hin : ev ∈ stR.cal := by
        rw [hc2]
        exact List.mem_filter.mpr
          ⟨by rw [hc1]; exact List.mem_append_right _ hevn, hkeep⟩
      exact ⟨ev, mem_apptSnap.mpr ⟨hin, by rw [hdn]; exact hsd,
        by rw [hdn]; exact hde, hdn, hAn, hSn⟩, hevt⟩
  refine ⟨hidsR, ⟨?_, ?_⟩, ?_, ?_, ?_, ?_⟩
  · rw [List.filter_eq_nil_iff]
    intro t ht hp
    obtain ⟨ev, hevA, hevT⟩ := hsettle t ht
    have htm : t ∈ dedupTitles ((apptSnap stR.cal s e d).map
        (fun e2 => e2.title)) :=
      mem_dedupTitles.mpr (List.mem_map.mpr ⟨ev, hevA, hevT⟩)
    have hct : (dedupTitles ((apptSnap stR.cal s e d).map
        (fun e2 => e2.title))).contains t = true := by simpa using htm
    rw [hct] at hp
    cases hp
  · rw [List.filter_eq_nil_iff]
    intro t ht hp
    obtain ⟨ev, hevA, hevT⟩ := List.mem_map.mp (mem_dedupTitles.mp ht)
    obtain ⟨hinR, _, _, hdR, hAR, hSR⟩ := mem_apptSnap.mp hevA
    rw [hc2] at hinR
    obtain ⟨hin1, hkeep⟩ := List.mem_filter.mp hinR
    have hmemE : t ∈ expected := by
      rw [hc1] at hin1
      rcases List.mem_append.mp hin1 with h0 | hn
      · have hsnapm : ev ∈ snap := mem_apptSnap.mpr
          ⟨h0, by rw [hdR]; exact hsd, by rw [hdR]; exact hde, hdR, hAR, hSR⟩
        have htex : t ∈ existingTitles :=
          mem_dedupTitles.mpr (List.mem_map.mpr ⟨ev, hsnapm, hevT⟩)
        by_cases hce : expected.contains t = true
        · simpa using hce
        · exfalso
          have hce2 : expected.contains t = false := by
            cases hb : expected.contains t
            · rfl
            · exact absurd hb hce
          have htextra : t ∈ extra :=
            List.mem_filter.mpr ⟨htex, by rw [hce2]; rfl⟩
          have hany : (extra.any fun t2 => snap.any fun e3 =>
              (e3.title == t2) && (ev.id == e3.id)) = true :=
            List.any_eq_true.mpr ⟨t, htextra, List.any_eq_true.mpr
              ⟨ev, hsnapm, by
                rw [Bool.and_eq_true]
                refine ⟨?_, ?_⟩
                · rw [hevT]
                  exact beq_self_eq_true t
                · exact beq_self_eq_true ev.id⟩⟩
          rw [hany] at hkeep
          cases hkeep
      · obtain ⟨_, _, _, htmiss⟩ := hnews ev hn
        rw [← hevT]
        exact (List.mem_filter.mp htmiss).1
    have hce : expected.contains t = true := by simpa using hmemE
    rw [hce] at hp
    cases hp
  · intro d0 t0 hne
    have p1 : searchByTitle stR.cal d0 t0 = searchByTitle st1.cal d0 t0 := by
      rw [hc2]
      apply searchByTitle_filter_pres
      intro x hx h1 _
      cases hb : (!(extra.any fun t => snap.any fun e2 =>
          (e2.title == t) && (x.id == e2.id)))
      · obtain ⟨hdd, _, _⟩ := hdel_id x hx hb
        rw [h1] at hdd
        exact absurd hdd hne
      · rfl
    have p2 : searchByTitle st1.cal d0 t0 = searchByTitle st.cal d0 t0 := by
      rw [hc1]
      apply searchByTitle_append_pres
      intro x hx h1 _
      obtain ⟨hdn, _, _, _⟩ := hnews x hx
      rw [h1] at hdn
      exact hne hdn
    exact p1.trans p2
  · intro t0 hts
    have p1 : searchByTitle stR.cal d t0 = searchByTitle st1.cal d t0 := by
      rw [hc2]
      apply searchByTitle_filter_pres
      intro x hx _ h2
      cases hb : (!(extra.any fun t => snap.any fun e2 =>
          (e2.title == t) && (x.id == e2.id)))
      · obtain ⟨_, hSS, _⟩ := hdel_id x hx hb
        rw [h2, hts] at hSS
        cases hSS
      · rfl
    have p2 : searchByTitle st1.cal d t0 = searchByTitle st.cal d t0 := by
      rw [hc1]
      apply searchByTitle_append_pres
      intro x hx _ h2
      obtain ⟨_, _, hSn, _⟩ := hnews x hx
      rw [h2, hts] at hSn
      cases hSn
    exact p1.trans p2
  · intro d0
    have p1 : sumSnap stR.cal s e d0 = sumSnap st1.cal s e d0 := by
      rw [hc2]
      apply sumSnap_filter_pres
      intro x hx _ h2
      cases hb : (!(extra.any fun t => snap.any fun e2 =>
          (e2.title == t) && (x.id == e2.id)))
      · obtain ⟨_, hSS, _⟩ := hdel_id x hx hb
        rw [h2] at hSS
        cases hSS
      · rfl
    have p2 : sumSnap st1.cal s e d0 = sumSnap st.cal s e d0 := by
      rw [hc1]
      apply sumSnap_append_pres
      intro x hx _ h2
      obtain ⟨_, _, hSn, _⟩ := hnews x hx
      rw [h2] at hSn
      cases hSn
    exact p1.trans p2
  · intro d0 hne
    have p1 : apptSnap stR.cal s e d0 = apptSnap st1.cal s e d0 := by
      rw [hc2]
      apply apptSnap_filter_pres
      intro x hx h1 _ _
      cases hb : (!(extra.any fun t => snap.any fun e2 =>
          (e2.title == t) && (x.id == e2.id)))
      · obtain ⟨hdd, _, _⟩ := hdel_id x hx hb
        rw [h1] at hdd
        exact absurd hdd hne
      · rfl
    have p2 : apptSnap st1.cal s e d0 = apptSnap st.cal s e d0 := by
      rw [hc1]
      apply apptSnap_append_pres
      intro x hx h1 _ _
      obtain ⟨hdn, _, _, _⟩ := hnews x hx
      rw [h1] at hdn
      exact hne hdn
    exact p1.trans p2

/-! ### Sync idempotence (C5): the summary step establishes its fixed
point -/

theorem sumStep_establishes (today fd : Nat) (holiday : Nat → Bool)
    (sheets : List Sheet) (s e d : Nat) (st : CalSt)
    (hids : IdsOk st) (hsd : s ≤ d) (hde : d ≤ e)
    (hnb : (syncSummaryEvents today fd holiday sheets d (sumSnap st.cal s e d)
      st).blocked = false) :
    IdsOk (syncSummaryEvents today fd holiday sheets d (sumSnap st.cal s e d) st)
    ∧ SummarySettled today fd holiday sheets s e d
        (syncSummaryEvents today fd holiday sheets d (sumSnap st.cal s e d)
          st).cal
    ∧ (∀ d0 t0, d0 ≠ d →
        searchByTitle
            (syncSummaryEvents today fd holiday sheets d
              (sumSnap st.cal s e d) st).cal d0 t0
          = searchByTitle st.cal d0 t0)
    ∧ (∀ d0, d0 ≠ d →
        sumSnap
            (syncSummaryEvents today fd holiday sheets d
              (sumSnap st.cal s e d) st).cal s e d0
          = sumSnap st.cal s e d0)
    ∧ (∀ d0,
        apptSnap
            (syncSummaryEvents today fd holiday sheets d
              (sumSnap st.cal s e d) st).cal s e d0
          = apptSnap st.cal s e d0) := by
  obtain ⟨hnd0, hlt0⟩ := hids
  by_cases hvb : DateUtils.validBizN today fd holiday d = true
  case neg =>
    have hvb2 : DateUtils.validBizN today fd holiday d = false := by
      cases hb : DateUtils.validBizN today fd holiday d
      · rfl
      · exact absurd hb hvb
    have hres : syncSummaryEvents today fd holiday sheets d
        (sumSnap st.cal s e d) st = st := by
      unfold syncSummaryEvents
      rw [hvb2]
      simp
    rw [hres]
    refine ⟨⟨hnd0, hlt0⟩, ?_, fun _ _ _ => rfl, fun _ _ => rfl, fun _ => rfl⟩
    intro hvb3
    rw [hvb2] at hvb3
    cases hvb3
  case pos =>
  set m := getAvailabilityForDate sheets d with hm
  set snap := sumSnap st.cal s e d with hsnap
  have hsnapP : ∀ e2 ∈ snap, e2 ∈ st.cal ∧ e2.date = d
      ∧ e2.title.hasSumTag = true := by
    intro e2 he2
    obtain ⟨h1, _, _, h4, h5⟩ := mem_sumSnap.mp he2
    exact ⟨h1, h4, h5⟩
  have hewtP : ∀ k ∈ searchByTitle st.cal d (Title.summary m),
      k ∈ st.cal ∧ k.date = d ∧ k.title = Title.summary m := by
    intro k hk
    exact mem_searchByTitle.mp hk
  cases hewtc : searchByTitle st.cal d (Title.summary m) with
  | nil =>
    -- no exact-title match on the live calendar
    have hnotmem : ∀ x ∈ st.cal, x.date = d → x.title = Title.summary m →
        False := by
      intro x hx h1 h2
      have : x ∈ searchByTitle st.cal d (Title.summary m) :=
        mem_searchByTitle.mpr ⟨hx, h1, h2⟩
      rw [hewtc] at this
      cases this
    cases hsc : snap with
    | nil =>
      -- branch 1: create
      rw [hsc] at hnb
      have hres : syncSummaryEvents today fd holiday sheets d [] st
          = safeCreateEvent d (Title.summary m) st := by
        simp only [syncSummaryEvents, ← hm]
        rw [hvb, hewtc]
        simp
      rw [hres] at hnb ⊢
      have hcal := safeCreateEvent_cal d (Title.summary m) st hnb
      refine ⟨idsOk_safeCreateEvent d (Title.summary m) st ⟨hnd0, hlt0⟩,
        ?_, ?_, ?_, ?_⟩
      · intro _
        rw [hcal]
        have hnew : (⟨st.nextId, d, Title.summary m⟩ : Event)
            ∈ searchByTitle (st.cal ++ [⟨st.nextId, d, Title.summary m⟩]) d
              (Title.summary m) :=
          mem_searchByTitle.mpr
            ⟨List.mem_append_right _ (List.mem_singleton_self _), rfl, rfl⟩
        refine ⟨List.ne_nil_of_mem hnew, ?_⟩
        intro ev hev
        obtain ⟨hevm, _, _, hevd, hevS⟩ := mem_sumSnap.mp hev
        rcases List.mem_append.mp hevm with h0 | hn
        · exfalso
          have : ev ∈ snap := mem_sumSnap.mpr
            ⟨h0, by rw [hevd]; exact hsd, by rw [hevd]; exact hde, hevd, hevS⟩
          rw [hsc] at this
          cases this
        · simp only [List.mem_singleton] at hn
          subst hn
          exact ⟨_, hnew, rfl⟩
      · intro d0 t0 hne
        rw [hcal]
        apply searchByTitle_append_pres
        intro x hx h1 _
        simp only [List.mem_singleton] at hx
        subst hx
        exact hne (by rw [← h1])
      · intro d0 hne
        rw [hcal]
        apply sumSnap_append_pres
        intro x hx h1 _
        simp only [List.mem_singleton] at hx
        subst hx
        exact hne (by rw [← h1])
      · intro d0
        rw [hcal]
        apply apptSnap_append_pres
        intro x hx _ h2 _
        simp only [List.mem_singleton] at hx
        subst hx
        cases h2
    | cons e0 rest =>
      cases hrc : rest with
      | nil =>
        -- branch 2: single event, retitle
        have he0snap : e0 ∈ snap := by
          rw [hsc]
          exact List.mem_cons_self _ _
        obtain ⟨he0cal, he0d, he0S⟩ := hsnapP e0 he0snap
        have he0ne : (e0.title == Title.summary m) = false := by
          cases hb : (e0.title == Title.summary m)
          · rfl
          · exact (hnotmem e0 he0cal he0d (eq_of_beq hb)).elim
        rw [hsc, hrc] at hnb
        have hres : syncSummaryEvents today fd holiday sheets d [e0] st
            = safeUpdateTitle e0 (Title.summary m) st := by
          simp only [syncSummaryEvents, ← hm]
          rw [hvb, hewtc]
          simp [he0ne]
        rw [hres] at hnb ⊢
        have hcal := safeUpdateTitle_cal e0 (Title.summary m) st hnb
        have hmape0 : (⟨e0.id, e0.date, Title.summary m⟩ : Event)
            ∈ (safeUpdateTitle e0 (Title.summary m) st).cal := by
          rw [hcal]
          refine List.mem_map.mpr ⟨e0, he0cal, ?_⟩
          rw [if_pos (beq_self_eq_true e0.id)]
        refine ⟨idsOk_safeUpdateTitle e0 (Title.summary m) st ⟨hnd0, hlt0⟩,
          ?_, ?_, ?_, ?_⟩
        · intro _
          have hnew : (⟨e0.id, e0.date, Title.summary m⟩ : Event)
              ∈ searchByTitle (safeUpdateTitle e0 (Title.summary m) st).cal d
                (Title.summary m) :=
            mem_searchByTitle.mpr ⟨hmape0, he0d, rfl⟩
          refine ⟨List.ne_nil_of_mem hnew, ?_⟩
          intro ev hev
          obtain ⟨hevm, _, _, hevd, hevS⟩ := mem_sumSnap.mp hev
          rw [hcal] at hevm
          obtain ⟨x, hx, hfx⟩ := List.mem_map.mp hevm
          by_cases hid : (x.id == e0.id) = true
          · rw [if_pos hid] at hfx
            refine ⟨_, hnew, ?_⟩
            rw [← hfx]
            exact (eq_of_beq hid).symm
          · rw [if_neg hid] at hfx
            exfalso
            subst hfx
            have : x ∈ snap := mem_sumSnap.mpr
              ⟨hx, by rw [hevd]; exact hsd, by rw [hevd]; exact hde, hevd, hevS⟩
            rw [hsc, hrc] at this
            rcases List.mem_cons.mp this with rfl | h3
            · rw [beq_self_eq_true] at hid
              exact hid rfl
            · cases h3
        · intro d0 t0 hne
          rw [hcal]
          apply searchByTitle_retitle_pres _ _ _ _ _ hnd0 he0cal
          · intro h1 _
            exact hne (by rw [← h1]; exact he0d)
          · intro h1 _
            exact hne (by rw [← h1]; exact he0d)
        · intro d0 hne
          rw [hcal]
          apply sumSnap_retitle_pres _ _ _ _ _ _ hnd0 he0cal
          · intro h1 _
            exact hne (by rw [← h1]; exact he0d)
          · intro h1 _
            exact hne (by rw [← h1]; exact he0d)
        · intro d0
          rw [hcal]
          apply apptSnap_retitle_pres _ _ _ _ _ _ hnd0 he0cal
          · intro _ _ h3
            rw [he0S] at h3
            cases h3
          · intro _ h2 _
            cases h2
      | cons e1 rest2 =>
        -- branch 3 with no exact match: keep the snapshot head
        have he0snap : e0 ∈ snap := by
          rw [hsc]
          exact List.mem_cons_self _ _
        obtain ⟨he0cal, he0d, he0S⟩ := hsnapP e0 he0snap
        have he0ne : (e0.title == Title.summary m) = false := by
          cases hb : (e0.title == Title.summary m)
          · rfl
          · exact (hnotmem e0 he0cal he0d (eq_of_beq hb)).elim
        rw [hsc, hrc] at hnb
        have hres : syncSummaryEvents today fd holiday sheets d
            (e0 :: e1 :: rest2) st
            = safeUpdateTitle e0 (Title.summary m)
                (((e0 :: e1 :: rest2).filter fun e2 =>
                  !(e0.id == e2.id)).foldl
                  (fun s' e2 => safeDeleteEvent e2 s') st) := by
          simp only [syncSummaryEvents, ← hm]
          rw [hvb, hewtc]
          rw [show ((!true : Bool)) = false from rfl, if_neg Bool.false_ne_true]
          have c1 : ((e0 :: e1 :: rest2 : List Event).isEmpty
              && !(!(([] : List Event).isEmpty))) = false := by simp
          rw [c1, if_neg Bool.false_ne_true]
          have c2 : ((e0 :: e1 :: rest2 : List Event).length == 1) = false := by
            rw [Bool.eq_false_iff]
            intro hcon
            have h5 := eq_of_beq hcon
            simp only [List.length_cons] at h5
            omega
          rw [c2, Bool.false_and, if_neg Bool.false_ne_true]
          have c3 : (decide ((e0 :: e1 :: rest2 : List Event).length > 1)
              || !(([] : List Event).isEmpty)) = true := by
            simp only [List.isEmpty_nil, Bool.not_true, Bool.or_false,
              decide_eq_true_eq, List.length_cons]
            omega
          rw [c3, if_pos rfl]
          rw [show (!(([] : List Event).isEmpty)) = false from rfl,
            if_neg Bool.false_ne_true]
          rw [show (e0 :: e1 :: rest2 : List Event).take 1 = [e0] from rfl]
          simp only [List.any_cons, List.any_nil, Bool.or_false]
          rw [he0ne, if_neg Bool.false_ne_true]
        rw [hres] at hnb ⊢
        set toDel := (e0 :: e1 :: rest2).filter fun e2 =>
          !(e0.id == e2.id) with htd
        set st1 := toDel.foldl (fun s' e2 => safeDeleteEvent e2 s') st with hst1
        have hb1 : st1.blocked = false :=
          safeUpdateTitle_blocked_mono _ _ _ hnb
        obtain ⟨hc1, _⟩ := delete_foldl_spec toDel st hb1
        have hids1 : IdsOk st1 :=
          foldl_idsOk _ (fun s2 e2 hI => idsOk_safeDeleteEvent e2 s2 hI)
            toDel st ⟨hnd0, hlt0⟩
        have hnd1 : (st1.cal.map (fun ev => ev.id)).Nodup := hids1.1
        have htdP : ∀ e2 ∈ toDel, e2 ∈ st.cal ∧ e2.date = d
            ∧ e2.title.hasSumTag = true := by
          intro e2 he2
          refine hsnapP e2 ?_
          rw [hsc, hrc]
          exact (List.mem_filter.mp he2).1
        have hkeepfun : ∀ x ∈ st.cal, x.id = e0.id →
            (!(toDel.any fun e2 => x.id == e2.id)) = true := by
          intro x hx hxid
          cases hb : (toDel.any fun e2 => x.id == e2.id)
          · rfl
          · exfalso
            obtain ⟨e2, he2, hid2⟩ := List.any_eq_true.mp hb
            obtain ⟨he2cal, _, _⟩ := htdP e2 he2
            have hxe : x = e2 := event_id_inj hnd0 hx he2cal (eq_of_beq hid2)
            subst hxe
            have hpred : (!(e0.id == x.id)) = true :=
              (List.mem_filter.mp he2).2
            rw [← hxid, beq_self_eq_true] at hpred
            simp at hpred
        have he0in1 : e0 ∈ st1.cal := by
          rw [hc1]
          exact List.mem_filter.mpr ⟨he0cal, hkeepfun e0 he0cal rfl⟩
        have hdelk : ∀ x ∈ st.cal,
            (!(toDel.any fun e2 => x.id == e2.id)) = false →
            x.date = d ∧ x.title.hasSumTag = true := by
          intro x hx hq
          have hany : (toDel.any fun e2 => x.id == e2.id) = true := by
            cases hb : (toDel.any fun e2 => x.id == e2.id)
            · rw [hb] at hq
              simp at hq
            · rfl
          obtain ⟨e2, he2, hid2⟩ := List.any_eq_true.mp hany
          obtain ⟨he2cal, he2d, he2S⟩ := htdP e2 he2
          have : x = e2 := event_id_inj hnd0 hx he2cal (eq_of_beq hid2)
          subst this
          exact ⟨he2d, he2S⟩
        have hcal := safeUpdateTitle_cal e0 (Title.summary m) st1 hnb
        have hmape0 : (⟨e0.id, e0.date, Title.summary m⟩ : Event)
            ∈ (safeUpdateTitle e0 (Title.summary m) st1).cal := by
          rw [hcal]
          refine List.mem_map.mpr ⟨e0, he0in1, ?_⟩
          rw [if_pos (beq_self_eq_true e0.id)]
        refine ⟨idsOk_safeUpdateTitle e0 (Title.summary m) st1 hids1,
          ?_, ?_, ?_, ?_⟩
        · intro _
          have hnew : (⟨e0.id, e0.date, Title.summary m⟩ : Event)
              ∈ searchByTitle (safeUpdateTitle e0 (Title.summary m) st1).cal d
                (Title.summary m) :=
            mem_searchByTitle.mpr ⟨hmape0, he0d, rfl⟩
          refine ⟨List.ne_nil_of_mem hnew, ?_⟩
          intro ev hev
          obtain ⟨hevm, _, _, hevd, hevS⟩ := mem_sumSnap.mp hev
          rw [hcal] at hevm
          obtain ⟨x, hx, hfx⟩ := List.mem_map.mp hevm
          by_cases hid : (x.id == e0.id) = true
          · rw [if_pos hid] at hfx
            refine ⟨_, hnew, ?_⟩
            rw [← hfx]
            exact (eq_of_beq hid).symm
          · rw [if_neg hid] at hfx
            exfalso
            subst hfx
            rw [hc1] at hx
            obtain ⟨hxcal, hxkeep⟩ := List.mem_filter.mp hx
            have hxsnap : x ∈ snap := mem_sumSnap.mpr
              ⟨hxcal, by rw [hevd]; exact hsd, by rw [hevd]; exact hde,
                hevd, hevS⟩
            have hxtd : x ∈ toDel := by
              refine List.mem_filter.mpr ⟨?_, ?_⟩
              · rw [← hrc, ← hsc]
                exact hxsnap
              · show (!(e0.id == x.id)) = true
                cases hb2 : (e0.id == x.id)
                · rfl
                · exfalso
                  rw [show (x.id == e0.id) = true from by
                    rw [(eq_of_beq hb2)]; exact beq_self_eq_true _] at hid
                  exact hid rfl
            have hxkeep2 : (!(toDel.any fun e2 => x.id == e2.id)) = true :=
              hxkeep
            have : (toDel.any fun e2 => x.id == e2.id) = true :=
              List.any_eq_true.mpr ⟨x, hxtd, beq_self_eq_true _⟩
            rw [this] at hxkeep2
            simp at hxkeep2
        · intro d0 t0 hne
          have p1 : searchByTitle (safeUpdateTitle e0 (Title.summary m)
              st1).cal d0 t0 = searchByTitle st1.cal d0 t0 := by
            rw [hcal]
            apply searchByTitle_retitle_pres _ _ _ _ _ hnd1 he0in1
            · intro h1 _
              exact hne (by rw [← h1]; exact he0d)
            · intro h1 _
              exact hne (by rw [← h1]; exact he0d)
          have p2 : searchByTitle st1.cal d0 t0 = searchByTitle st.cal d0 t0 := by
            rw [hc1]
            apply searchByTitle_filter_pres
            intro x hx h1 _
            cases hb : (!(toDel.any fun e2 => x.id == e2.id))
            · obtain ⟨hdd, _⟩ := hdelk x hx hb
              rw [h1] at hdd
              exact absurd hdd hne
            · rfl
          exact p1.trans p2
        · intro d0 hne
          have p1 : sumSnap (safeUpdateTitle e0 (Title.summary m) st1).cal
              s e d0 = sumSnap st1.cal s e d0 := by
            rw [hcal]
            apply sumSnap_retitle_pres _ _ _ _ _ _ hnd1 he0in1
            · intro h1 _
              exact hne (by rw [← h1]; exact he0d)
            · intro h1 _
              exact hne (by rw [← h1]; exact he0d)
          have p2 : sumSnap st1.cal s e d0 = sumSnap st.cal s e d0 := by
            rw [hc1]
            apply sumSnap_filter_pres
            intro x hx h1 _
            cases hb : (!(toDel.any fun e2 => x.id == e2.id))
            · obtain ⟨hdd, _⟩ := hdelk x hx hb
              rw [h1] at hdd
              exact absurd hdd hne
            · rfl
          exact p1.trans p2
        · intro d0
          have p1 : apptSnap (safeUpdateTitle e0 (Title.summary m) st1).cal
              s e d0 = apptSnap st1.cal s e d0 := by
            rw [hcal]
            apply apptSnap_retitle_pres _ _ _ _ _ _ hnd1 he0in1
            · intro _ _ h3
              rw [he0S] at h3
              cases h3
            · intro _ h2 _
              cases h2
          have p2 : apptSnap st1.cal s e d0 = apptSnap st.cal s e d0 := by
            rw [hc1]
            apply apptSnap_filter_pres
            intro x hx _ _ h3
            cases hb : (!(toDel.any fun e2 => x.id == e2.id))
            · obtain ⟨_, hSS⟩ := hdelk x hx hb
              rw [h3] at hSS
              cases hSS
            · rfl
          exact p1.trans p2
  | cons k0 ewtRest =>
    -- branch 3 with an exact match: keep the exact-title events
    have hk0 : k0 ∈ searchByTitle st.cal d (Title.summary m) := by
      rw [hewtc]
      exact List.mem_cons_self _ _
    obtain ⟨hk0cal, hk0d, hk0t⟩ := hewtP k0 hk0
    have hk0eq : (k0.title == Title.summary m) = true := by
      rw [hk0t]
      exact beq_self_eq_true _
    have hres : syncSummaryEvents today fd holiday sheets d snap st
        = ((snap.filter fun e2 => !((k0 :: ewtRest).any fun k =>
            k.id == e2.id)).foldl (fun s' e2 => safeDeleteEvent e2 s') st) := by
      simp only [syncSummaryEvents, ← hm]
      rw [hvb, hewtc]
      rw [show ((!true : Bool)) = false from rfl, if_neg Bool.false_ne_true]
      have c1 : (snap.isEmpty
          && !(!((k0 :: ewtRest : List Event).isEmpty))) = false := by simp
      rw [c1, if_neg Bool.false_ne_true]
      have c2 : ((snap.length == 1)
          && !(!((k0 :: ewtRest : List Event).isEmpty))) = false := by simp
      rw [c2, if_neg Bool.false_ne_true]
      have c3 : (decide (snap.length > 1)
          || !((k0 :: ewtRest : List Event).isEmpty)) = true := by simp
      rw [c3, if_pos rfl]
      rw [show (!((k0 :: ewtRest : List Event).isEmpty)) = true from rfl,
        if_pos rfl]
      simp only []
      rw [hk0eq, if_pos rfl]
    rw [hres] at hnb ⊢
    set toDel := snap.filter fun e2 => !((k0 :: ewtRest).any fun k =>
      k.id == e2.id) with htd
    set st1 := toDel.foldl (fun s' e2 => safeDeleteEvent e2 s') st with hst1
    obtain ⟨hc1, _⟩ := delete_foldl_spec toDel st hnb
    have hids1 : IdsOk st1 :=
      foldl_idsOk _ (fun s2 e2 hI => idsOk_safeDeleteEvent e2 s2 hI)
        toDel st ⟨hnd0, hlt0⟩
    have htdP : ∀ e2 ∈ toDel, e2 ∈ st.cal ∧ e2.date = d
        ∧ e2.title.hasSumTag = true :=
      fun e2 he2 => hsnapP e2 (List.mem_filter.mp he2).1
    have hkeepfun : ∀ x ∈ st.cal,
        x ∈ searchByTitle st.cal d (Title.summary m) →
        (!(toDel.any fun e2 => x.id == e2.id)) = true := by
      intro x hx hxewt
      cases hb : (toDel.any fun e2 => x.id == e2.id)
      · rfl
      · exfalso
        obtain ⟨e2, he2, hid2⟩ := List.any_eq_true.mp hb
        obtain ⟨he2cal, _, _⟩ := htdP e2 he2
        have : x = e2 := event_id_inj hnd0 hx he2cal (eq_of_beq hid2)
        subst this
        have hpred : (!((k0 :: ewtRest).any fun k => k.id == x.id)) = true :=
          (List.mem_filter.mp he2).2
        rw [← hewtc] at hpred
        have : (searchByTitle st.cal d (Title.summary m)).any fun k =>
            k.id == x.id := List.any_eq_true.mpr ⟨x, hxewt, beq_self_eq_true _⟩
        rw [this] at hpred
        simp at hpred
    have hdelk : ∀ x ∈ st.cal,
        (!(toDel.any fun e2 => x.id == e2.id)) = false →
        x.date = d ∧ x.title.hasSumTag = true := by
      intro x hx hq
      have hany : (toDel.any fun e2 => x.id == e2.id) = true := by
        cases hb : (toDel.any fun e2 => x.id == e2.id)
        · rw [hb] at hq
          simp at hq
        · rfl
      obtain ⟨e2, he2, hid2⟩ := List.any_eq_true.mp hany
      obtain ⟨he2cal, he2d, he2S⟩ := htdP e2 he2
      have : x = e2 := event_id_inj hnd0 hx he2cal (eq_of_beq hid2)
      subst this
      exact ⟨he2d, he2S⟩
    have hsurv : ∀ x ∈ searchByTitle st.cal d (Title.summary m),
        x ∈ st1.cal := by
      intro x hxewt
      have hxcal := (mem_searchByTitle.mp hxewt).1
      rw [hc1]
      exact List.mem_filter.mpr ⟨hxcal, hkeepfun x hxcal hxewt⟩
    refine ⟨hids1, ?_, ?_, ?_, ?_⟩
    · intro _
      have hk0in : k0 ∈ searchByTitle st1.cal d (Title.summary m) :=
        mem_searchByTitle.mpr ⟨hsurv k0 hk0, hk0d, hk0t⟩
      refine ⟨List.ne_nil_of_mem hk0in, ?_⟩
      intro ev hev
      obtain ⟨hevm, _, _, hevd, hevS⟩ := mem_sumSnap.mp hev
      rw [hc1] at hevm
      obtain ⟨hevcal, hevkeep⟩ := List.mem_filter.mp hevm
      have hevkeep2 : (!(toDel.any fun e2 => ev.id == e2.id)) = true := hevkeep
      have hevsnap : ev ∈ snap := mem_sumSnap.mpr
        ⟨hevcal, by rw [hevd]; exact hsd, by rw [hevd]; exact hde, hevd, hevS⟩
      -- the survivor is covered by some exact-title event
      have hnottd : ev ∉ toDel := by
        intro hin
        have : (toDel.any fun e2 => ev.id == e2.id) = true :=
          List.any_eq_true.mpr ⟨ev, hin, beq_self_eq_true _⟩
        rw [this] at hevkeep2
        simp at hevkeep2
      have hpred : (!((k0 :: ewtRest).any fun k => k.id == ev.id)) = false := by
        cases hb : (!((k0 :: ewtRest).any fun k => k.id == ev.id))
        · rfl
        · exfalso
          exact hnottd (List.mem_filter.mpr ⟨hevsnap, hb⟩)
      have hany : ((k0 :: ewtRest).any fun k => k.id == ev.id) = true := by
        cases hb : ((k0 :: ewtRest).any fun k => k.id == ev.id)
        · rw [hb] at hpred
          simp at hpred
        · rfl
      obtain ⟨k, hkmem, hkid⟩ := List.any_eq_true.mp hany
      rw [← hewtc] at hkmem
      obtain ⟨_, hkd, hkt⟩ := hewtP k hkmem
      exact ⟨k, mem_searchByTitle.mpr ⟨hsurv k hkmem, hkd, hkt⟩,
        eq_of_beq hkid⟩
    · intro d0 t0 hne
      rw [hc1]
      apply searchByTitle_filter_pres
      intro x hx h1 _
      cases hb : (!(toDel.any fun e2 => x.id == e2.id))
      · obtain ⟨hdd, _⟩ := hdelk x hx hb
        rw [h1] at hdd
        exact absurd hdd hne
      · rfl
    · intro d0 hne
      rw [hc1]
      apply sumSnap_filter_pres
      intro x hx h1 _
      cases hb : (!(toDel.any fun e2 => x.id == e2.id))
      · obtain ⟨hdd, _⟩ := hdelk x hx hb
        rw [h1] at hdd
        exact absurd hdd hne
      · rfl
    · intro d0
      rw [hc1]
      apply apptSnap_filter_pres
      intro x hx _ _ h3
      cases hb : (!(toDel.any fun e2 => x.id == e2.id))
      · obtain ⟨_, hSS⟩ := hdelk x hx hb
        rw [h3] at hSS
        cases hSS
      · rfl

/-! ### Sync idempotence (C5): step-level plumbing -/

theorem syncSummaryEvents_blocked_mono (today fd : Nat) (holiday : Nat → Bool)
    (sheets : List Sheet) (d : Nat) (snap : List Event) (st : CalSt)
    (h : (syncSummaryEvents today fd holiday sheets d snap st).blocked = false) :
    st.blocked = false := by
  simp only [syncSummaryEvents] at h
  split at h
  · exact h
  · split at h
    · exact safeCreateEvent_blocked_mono _ _ _ h
    · split at h
      · split at h
        · exact h
        · split at h
          · exact h
          · exact safeUpdateTitle_blocked_mono _ _ _ h
      · split at h
        · split at h
          · exact foldl_blocked_mono _
              (fun a b => safeDeleteEvent_blocked_mono b a) _ _ h
          · split at h
            · exact foldl_blocked_mono _
                (fun a b => safeDeleteEvent_blocked_mono b a) _ _ h
            · exact foldl_blocked_mono _
                (fun a b => safeDeleteEvent_blocked_mono b a) _ _
                (safeUpdateTitle_blocked_mono _ _ _ h)
        · exact h

theorem syncAppointmentEvents_blocked_mono (responses : List RespSheet)
    (d : Nat) (snap : List Event) (st : CalSt)
    (h : (syncAppointmentEvents responses d snap st).blocked = false) :
    st.blocked = false := by
  simp only [syncAppointmentEvents] at h
  have h1 := foldl_blocked_mono _
    (fun a b hb => foldl_blocked_mono _
      (fun a2 b2 => safeDeleteEvent_blocked_mono b2 a2) _ a hb) _ _ h
  exact foldl_blocked_mono _
    (fun a b hb => by
      by_cases he : (searchByTitle a.cal d b).isEmpty = true
      · rw [if_pos he] at hb
        exact safeCreateEvent_blocked_mono _ _ _ hb
      · rw [if_neg he] at hb
        exact hb) _ _ h1

theorem syncDateStep_blocked_mono (today fd : Nat) (holiday : Nat → Bool)
    (sheets : List Sheet) (responses : List RespSheet) (cal0 : List Event)
    (s e : Nat) (st : CalSt) (d : Nat)
    (h : (syncDateStep today fd holiday sheets responses cal0 s e st
      d).blocked = false) :
    st.blocked = false := by
  simp only [syncDateStep] at h
  split at h
  · exact h
  · split at h
    · exact h
    · exact syncSummaryEvents_blocked_mono _ _ _ _ _ _ _
        (syncAppointmentEvents_blocked_mono _ _ _ _ h)

theorem syncDateStep_proc (today fd : Nat) (holiday : Nat → Bool)
    (sheets : List Sheet) (responses : List RespSheet) (cal0 : List Event)
    (s e : Nat) (st : CalSt) (d : Nat)
    (hvb : DateUtils.validBizN today fd holiday d = true) :
    syncDateStep today fd holiday sheets responses cal0 s e st d
      = syncAppointmentEvents responses d (apptSnap cal0 s e d)
          (syncSummaryEvents today fd holiday sheets d (sumSnap cal0 s e d)
            st) := by
  have hvb2 := hvb
  unfold DateUtils.validBizN at hvb2
  rw [Bool.and_eq_true, Bool.and_eq_true, Bool.and_eq_true] at hvb2
  obtain ⟨⟨⟨ha, hw⟩, hf⟩, hh⟩ := hvb2
  rw [Bool.not_eq_true'] at ha hw hf hh
  have ha2 : DateUtils.isBeforeToday today (.valid d) = false := ha
  have hw2 : DateUtils.isWeekend (.valid d) = false := hw
  have hf2 : DateUtils.isBeyondFutureWindow today fd (.valid d) = false := hf
  unfold syncDateStep
  rw [ha2, hw2, hf2, Bool.or_false, Bool.or_false,
    if_neg Bool.false_ne_true, hh, if_neg Bool.false_ne_true]

theorem syncDateStep_skip (today fd : Nat) (holiday : Nat → Bool)
    (sheets : List Sheet) (responses : List RespSheet) (cal0 : List Event)
    (s e : Nat) (st : CalSt) (d : Nat)
    (hvb : DateUtils.validBizN today fd holiday d = false) :
    syncDateStep today fd holiday sheets responses cal0 s e st d = st := by
  unfold syncDateStep
  by_cases hA : (DateUtils.isBeforeToday today (.valid d)
      || DateUtils.isWeekend (.valid d)
      || DateUtils.isBeyondFutureWindow today fd (.valid d)) = true
  · rw [if_pos hA]
  · rw [if_neg hA]
    have hA2 : (DateUtils.isBeforeToday today (.valid d)
        || DateUtils.isWeekend (.valid d)
        || DateUtils.isBeyondFutureWindow today fd (.valid d)) = false :=
      Bool.eq_false_iff.mpr hA
    rw [Bool.or_eq_false_iff, Bool.or_eq_false_iff] at hA2
    obtain ⟨⟨ha, hw⟩, hf⟩ := hA2
    have hh : holiday d = true := by
      cases hhb : holiday d
      · exfalso
        have hv : DateUtils.validBizN today fd holiday d = true := by
          unfold DateUtils.validBizN
          have ha2 : (decide (d < today)) = false := ha
          have hw2 : ((d % 7 == 0) || (d % 7 == 6)) = false := hw
          have hf2 : (decide (today + fd < d)) = false := hf
          rw [ha2, hw2, hf2, hhb]
          rfl
        rw [hvb] at hv
        cases hv
      · rfl
    rw [if_pos hh]

theorem syncDateStep_establishes (today fd : Nat) (holiday : Nat → Bool)
    (sheets : List Sheet) (responses : List RespSheet) (cal0 : List Event)
    (s e : Nat) (st : CalSt) (d : Nat)
    (hids : IdsOk st)
    (haccS : sumSnap st.cal s e d = sumSnap cal0 s e d)
    (haccA : apptSnap st.cal s e d = apptSnap cal0 s e d)
    (hsd : s ≤ d) (hde : d ≤ e)
    (hnb : (syncDateStep today fd holiday sheets responses cal0 s e st
      d).blocked = false) :
    IdsOk (syncDateStep today fd holiday sheets responses cal0 s e st d)
    ∧ SummarySettled today fd holiday sheets s e d
        (syncDateStep today fd holiday sheets responses cal0 s e st d).cal
    ∧ (DateUtils.validBizN today fd holiday d = true →
        ApptSettled responses s e d
          (syncDateStep today fd holiday sheets responses cal0 s e st d).cal)
    ∧ (∀ d0, d0 ≠ d →
        sumSnap (syncDateStep today fd holiday sheets responses cal0 s e st
            d).cal s e d0 = sumSnap st.cal s e d0
        ∧ apptSnap (syncDateStep today fd holiday sheets responses cal0 s e st
            d).cal s e d0 = apptSnap st.cal s e d0
        ∧ ∀ t0, searchByTitle (syncDateStep today fd holiday sheets responses
            cal0 s e st d).cal d0 t0 = searchByTitle st.cal d0 t0) := by
  by_cases hvb : DateUtils.validBizN today fd holiday d = true
  · rw [syncDateStep_proc today fd holiday sheets responses cal0 s e st d hvb]
      at hnb ⊢
    rw [← haccS, ← haccA] at hnb ⊢
    have hbs : (syncSummaryEvents today fd holiday sheets d
        (sumSnap st.cal s e d) st).blocked = false :=
      syncAppointmentEvents_blocked_mono _ _ _ _ hnb
    obtain ⟨ids1, settled1, pres1search, pres1sum, pres1appt⟩ :=
      sumStep_establishes today fd holiday sheets s e d st hids hsd hde hbs
    set st1 := syncSummaryEvents today fd holiday sheets d
      (sumSnap st.cal s e d) st with hst1
    have hAcc2 : apptSnap st.cal s e d = apptSnap st1.cal s e d :=
      (pres1appt d).symm
    rw [hAcc2] at hnb ⊢
    obtain ⟨ids2, settled2, pres2dne, pres2sumsearch, pres2sum, pres2appt⟩ :=
      apptStep_establishes responses s e d st1 ids1 hsd hde hnb
    refine ⟨ids2, ?_, fun _ => settled2, ?_⟩
    · intro hv
      unfold SummarySettled at settled1
      rw [pres2sumsearch (Title.summary (getAvailabilityForDate sheets d)) rfl,
        pres2sum d]
      exact settled1 hv
    · intro d0 hne
      refine ⟨(pres2sum d0).trans (pres1sum d0 hne),
        (pres2appt d0 hne).trans (pres1appt d0),
        fun t0 => (pres2dne d0 t0 hne).trans (pres1search d0 t0 hne)⟩
  · have hvb2 : DateUtils.validBizN today fd holiday d = false := by
      cases hb : DateUtils.validBizN today fd holiday d
      · rfl
      · exact absurd hb hvb
    rw [syncDateStep_skip today fd holiday sheets responses cal0 s e st d hvb2]
    refine ⟨hids, ?_, ?_, fun d0 _ => ⟨rfl, rfl, fun _ => rfl⟩⟩
    · intro hv
      rw [hvb2] at hv
      cases hv
    · intro hv
      rw [hvb2] at hv
      cases hv

/-! ### Sync idempotence (C5): settled dates are processed without any
calendar call -/

theorem syncSummaryEvents_noop (today fd : Nat) (holiday : Nat → Bool)
    (sheets : List Sheet) (s e d : Nat) (st : CalSt)
    (hset : SummarySettled today fd holiday sheets s e d st.cal) :
    syncSummaryEvents today fd holiday sheets d (sumSnap st.cal s e d) st
      = st := by
  by_cases hvb : DateUtils.validBizN today fd holiday d = true
  · obtain ⟨hne, hcov⟩ := hset hvb
    cases hewtc : searchByTitle st.cal d
        (Title.summary (getAvailabilityForDate sheets d)) with
    | nil => exact absurd hewtc hne
    | cons k0 ewtRest =>
      have hk0 : k0 ∈ searchByTitle st.cal d
          (Title.summary (getAvailabilityForDate sheets d)) := by
        rw [hewtc]
        exact List.mem_cons_self _ _
      obtain ⟨hk0cal, hk0d, hk0t⟩ := mem_searchByTitle.mp hk0
      have hk0eq : (k0.title
          == Title.summary (getAvailabilityForDate sheets d)) = true := by
        rw [hk0t]
        exact beq_self_eq_true _
      have hres : syncSummaryEvents today fd holiday sheets d
          (sumSnap st.cal s e d) st
          = (((sumSnap st.cal s e d).filter fun e2 =>
              !((k0 :: ewtRest).any fun k => k.id == e2.id)).foldl
              (fun s' e2 => safeDeleteEvent e2 s') st) := by
        simp only [syncSummaryEvents]
        rw [hvb, hewtc]
        rw [show ((!true : Bool)) = false from rfl, if_neg Bool.false_ne_true]
        have c1 : ((sumSnap st.cal s e d).isEmpty
            && !(!((k0 :: ewtRest : List Event).isEmpty))) = false := by simp
        rw [c1, if_neg Bool.false_ne_true]
        have c2 : (((sumSnap st.cal s e d).length == 1)
            && !(!((k0 :: ewtRest : List Event).isEmpty))) = false := by simp
        rw [c2, if_neg Bool.false_ne_true]
        have c3 : (decide ((sumSnap st.cal s e d).length > 1)
            || !((k0 :: ewtRest : List Event).isEmpty)) = true := by simp
        rw [c3, if_pos rfl]
        rw [show (!((k0 :: ewtRest : List Event).isEmpty)) = true from rfl,
          if_pos rfl]
        simp only []
        rw [hk0eq, if_pos rfl]
      rw [hres]
      have hnil : ((sumSnap st.cal s e d).filter fun e2 =>
          !((k0 :: ewtRest).any fun k => k.id == e2.id)) = [] := by
        rw [List.filter_eq_nil_iff]
        intro e2 he2 hp
        have hp2 : (!((k0 :: ewtRest).any fun k => k.id == e2.id)) = true := hp
        obtain ⟨k, hk, hkid⟩ := hcov e2 he2
        rw [hewtc] at hk
        have hany : ((k0 :: ewtRest).any fun k2 => k2.id == e2.id) = true :=
          List.any_eq_true.mpr ⟨k, hk, by rw [hkid]; exact beq_self_eq_true _⟩
        rw [hany] at hp2
        simp at hp2
      rw [hnil]
      rfl
  · have hvb2 : DateUtils.validBizN today fd holiday d = false := by
      cases hb : DateUtils.validBizN today fd holiday d
      · rfl
      · exact absurd hb hvb
    simp only [syncSummaryEvents]
    rw [hvb2]
    simp

theorem syncAppointmentEvents_noop (responses : List RespSheet) (s e d : Nat)
    (st : CalSt) (hset : ApptSettled responses s e d st.cal) :
    syncAppointmentEvents responses d (apptSnap st.cal s e d) st = st := by
  obtain ⟨h1, h2⟩ := hset
  simp only [syncAppointmentEvents]
  rw [h1, h2]
  rfl

theorem syncDateStep_noop (today fd : Nat) (holiday : Nat → Bool)
    (sheets : List Sheet) (responses : List RespSheet) (s e : Nat)
    (st : CalSt) (d : Nat)
    (hsum : SummarySettled today fd holiday sheets s e d st.cal)
    (happt : DateUtils.validBizN today fd holiday d = true →
      ApptSettled responses s e d st.cal) :
    syncDateStep today fd holiday sheets responses st.cal s e st d = st := by
  by_cases hvb : DateUtils.validBizN today fd holiday d = true
  · rw [syncDateStep_proc today fd holiday sheets responses st.cal s e st d hvb]
    rw [syncSummaryEvents_noop today fd holiday sheets s e d st hsum]
    exact syncAppointmentEvents_noop responses s e d st (happt hvb)
  · have hvb2 : DateUtils.validBizN today fd holiday d = false := by
      cases hb : DateUtils.validBizN today fd holiday d
      · rfl
      · exact absurd hb hvb
    exact syncDateStep_skip today fd holiday sheets responses st.cal s e st d
      hvb2

/-! ### Sync idempotence (C5): whole-run lemmas -/

theorem run1_go (today fd : Nat) (holiday : Nat → Bool) (sheets : List Sheet)
    (responses : List RespSheet) (cal0 : List Event) (s e : Nat) :
    ∀ (R : List Nat) (st : CalSt),
      R.Nodup →
      (∀ d ∈ R, s ≤ d ∧ d ≤ e) →
      (∀ d ∈ R, sumSnap st.cal s e d = sumSnap cal0 s e d
        ∧ apptSnap st.cal s e d = apptSnap cal0 s e d) →
      IdsOk st →
      ((R.foldl (syncDateStep today fd holiday sheets responses cal0 s e)
        st).blocked = false) →
      IdsOk (R.foldl (syncDateStep today fd holiday sheets responses cal0 s e)
        st)
      ∧ (∀ d ∈ R,
          SummarySettled today fd holiday sheets s e d
            (R.foldl (syncDateStep today fd holiday sheets responses cal0 s e)
              st).cal
          ∧ (DateUtils.validBizN today fd holiday d = true →
              ApptSettled responses s e d
                (R.foldl (syncDateStep today fd holiday sheets responses cal0
                  s e) st).cal))
      ∧ (∀ d0, d0 ∉ R →
          sumSnap (R.foldl (syncDateStep today fd holiday sheets responses
            cal0 s e) st).cal s e d0 = sumSnap st.cal s e d0
          ∧ apptSnap (R.foldl (syncDateStep today fd holiday sheets responses
            cal0 s e) st).cal s e d0 = apptSnap st.cal s e d0
          ∧ ∀ t0, searchByTitle (R.foldl (syncDateStep today fd holiday sheets
            responses cal0 s e) st).cal d0 t0 = searchByTitle st.cal d0 t0) := by
  intro R
  induction R with
  | nil =>
      intro st _ _ _ hids _
      refine ⟨hids, ?_, ?_⟩
      · intro d hd
        cases hd
      · intro d0 _
        exact ⟨rfl, rfl, fun _ => rfl⟩
  | cons d R ih =>
      intro st hnd hbnds hacc hids hnb
      simp only [List.foldl_cons] at hnb ⊢
      rw [List.nodup_cons] at hnd
      obtain ⟨hdR, hndR⟩ := hnd
      set st1 := syncDateStep today fd holiday sheets responses cal0 s e st d
        with hst1
      have hnb1 : st1.blocked = false :=
        foldl_blocked_mono _
          (fun a b => syncDateStep_blocked_mono today fd holiday sheets
            responses cal0 s e a b) R st1 hnb
      obtain ⟨hsd, hde⟩ := hbnds d (List.mem_cons_self _ _)
      obtain ⟨haccS, haccA⟩ := hacc d (List.mem_cons_self _ _)
      obtain ⟨ids1, sset1, aset1, presStep⟩ :=
        syncDateStep_establishes today fd holiday sheets responses cal0 s e st
          d hids haccS haccA hsd hde hnb1
      have hacc1 : ∀ d2 ∈ R, sumSnap st1.cal s e d2 = sumSnap cal0 s e d2
          ∧ apptSnap st1.cal s e d2 = apptSnap cal0 s e d2 := by
        intro d2 hd2
        have hne : d2 ≠ d := fun hq => hdR (hq ▸ hd2)
        obtain ⟨p1, p2, _⟩ := presStep d2 hne
        obtain ⟨q1, q2⟩ := hacc d2 (List.mem_cons_of_mem _ hd2)
        exact ⟨p1.trans q1, p2.trans q2⟩
      obtain ⟨idsF, setF, presF⟩ := ih st1 hndR
        (fun d2 hd2 => hbnds d2 (List.mem_cons_of_mem _ hd2)) hacc1 ids1 hnb
      refine ⟨idsF, ?_, ?_⟩
      · intro d2 hd2
        rcases List.mem_cons.mp hd2 with rfl | hd3
        · obtain ⟨pS, pA, pT⟩ := presF d2 hdR
          constructor
          · intro hv
            unfold SummarySettled at sset1
            rw [pT (Title.summary (getAvailabilityForDate sheets d2)), pS]
            exact sset1 hv
          · intro hv
            have h4 := aset1 hv
            unfold ApptSettled at h4 ⊢
            rw [pA]
            exact h4
        · exact setF d2 hd3
      · intro d0 hd0
        have hne : d0 ≠ d := fun hq =>
          hd0 (by rw [hq]; exact List.mem_cons_self d R)
        have hnotR : d0 ∉ R := fun hq => hd0 (List.mem_cons_of_mem _ hq)
        obtain ⟨p1, p2, p3⟩ := presF d0 hnotR
        obtain ⟨q1, q2, q3⟩ := presStep d0 hne
        exact ⟨p1.trans q1, p2.trans q2, fun t0 => (p3 t0).trans (q3 t0)⟩

theorem run2_go (today fd : Nat) (holiday : Nat → Bool) (sheets : List Sheet)
    (responses : List RespSheet) (s e : Nat) (cal : List Event) :
    ∀ (R : List Nat) (st : CalSt), st.cal = cal →
      (∀ d ∈ R, SummarySettled today fd holiday sheets s e d cal
        ∧ (DateUtils.validBizN today fd holiday d = true →
            ApptSettled responses s e d cal)) →
      R.foldl (syncDateStep today fd holiday sheets responses cal s e) st
        = st := by
  intro R
  induction R with
  | nil => intro st _ _; rfl
  | cons d R ih =>
      intro st hcal hset
      simp only [List.foldl_cons]
      have hstep : syncDateStep today fd holiday sheets responses cal s e st d
          = st := by
        rw [← hcal]
        refine syncDateStep_noop today fd holiday sheets responses s e st d
          ?_ ?_
        · rw [hcal]
          exact (hset d (List.mem_cons_self _ _)).1
        · intro hv
          rw [hcal]
          exact (hset d (List.mem_cons_self _ _)).2 hv
      rw [hstep]
      exact ih st hcal (fun d2 hd2 => hset d2 (List.mem_cons_of_mem _ hd2))

/-- C5 (amended): if the first `syncDateRange` run over `[s, e]` was not cut
short by the quota gate (no intended mutation was skipped because `canCall`
returned `false`), then a second run on the unchanged ledger and response
snapshots, starting from the calendar produced by the first run, performs
zero create, update or delete calls and leaves the calendar unchanged.  The
event-id well-formedness hypothesis `IdsOk` models the fact that distinct
Google Calendar events are distinct objects. -/
theorem C5_amended_sync_idempotent (today fd : Nat) (holiday : Nat → Bool)
    (sheets : List Sheet) (responses : List RespSheet) (s e : Nat)
    (st0 : CalSt) (hids : IdsOk st0)
    (hnb : (syncDateRange today fd holiday sheets responses s e
      st0).blocked = false) :
    (syncDateRange today fd holiday sheets responses s e
      (syncDateRange today fd holiday sheets responses s e st0)).created = 0
    ∧ (syncDateRange today fd holiday sheets responses s e
      (syncDateRange today fd holiday sheets responses s e st0)).updated = 0
    ∧ (syncDateRange today fd holiday sheets responses s e
      (syncDateRange today fd holiday sheets responses s e st0)).deleted = 0
    ∧ (syncDateRange today fd holiday sheets responses s e
        (syncDateRange today fd holiday sheets responses s e st0)).cal
      = (syncDateRange today fd holiday sheets responses s e st0).cal := by
  have key1 : syncDateRange today fd holiday sheets responses s e st0
      = (rangeDates s e).foldl
          (syncDateStep today fd holiday sheets responses st0.cal s e)
          { st0 with runCalls := 0, created := 0, updated := 0, deleted := 0,
                     blocked := false } := rfl
  have hnb1 : ((rangeDates s e).foldl
      (syncDateStep today fd holiday sheets responses st0.cal s e)
      { st0 with runCalls := 0, created := 0, updated := 0, deleted := 0,
                 blocked := false }).blocked = false := by
    rw [← key1]
    exact hnb
  obtain ⟨idsF, setF, _⟩ := run1_go today fd holiday sheets responses st0.cal
    s e (rangeDates s e)
    { st0 with runCalls := 0, created := 0, updated := 0, deleted := 0,
               blocked := false }
    (rangeDates_nodup s e) (fun d hd => rangeDates_bounds hd)
    (fun d _ => ⟨rfl, rfl⟩) hids hnb1
  rw [← key1] at setF
  have key2 : syncDateRange today fd holiday sheets responses s e
      (syncDateRange today fd holiday sheets responses s e st0)
      = (rangeDates s e).foldl
          (syncDateStep today fd holiday sheets responses
            (syncDateRange today fd holiday sheets responses s e st0).cal s e)
          { syncDateRange today fd holiday sheets responses s e st0 with
            runCalls := 0, created := 0, updated := 0, deleted := 0,
            blocked := false } := rfl
  have hnoop := run2_go today fd holiday sheets responses s e
    (syncDateRange today fd holiday sheets responses s e st0).cal
    (rangeDates s e)
    { syncDateRange today fd holiday sheets responses s e st0 with
      runCalls := 0, created := 0, updated := 0, deleted := 0,
      blocked := false }
    rfl (fun d hd => setF d hd)
  rw [key2, hnoop]
  exact ⟨rfl, rfl, rfl, rfl⟩

/-- Witness for C5 (amended): a small blocked-free run (two dates, empty
ledger and responses) satisfies the hypotheses, and the second run performs
no calls. -/
theorem C5_amended_sync_idempotent_witness :
    (syncDateRange 1 60 (fun _ => false) [] [] 1 2
      (syncDateRange 1 60 (fun _ => false) [] [] 1 2
        ⟨[], 0, 0, 0, 0, 0, 0, false⟩)).created = 0
    ∧ (syncDateRange 1 60 (fun _ => false) [] [] 1 2
      (syncDateRange 1 60 (fun _ => false) [] [] 1 2
        ⟨[], 0, 0, 0, 0, 0, 0, false⟩)).updated = 0
    ∧ (syncDateRange 1 60 (fun _ => false) [] [] 1 2
      (syncDateRange 1 60 (fun _ => false) [] [] 1 2
        ⟨[], 0, 0, 0, 0, 0, 0, false⟩)).deleted = 0
    ∧ (syncDateRange 1 60 (fun _ => false) [] [] 1 2
        (syncDateRange 1 60 (fun _ => false) [] [] 1 2
          ⟨[], 0, 0, 0, 0, 0, 0, false⟩)).cal
      = (syncDateRange 1 60 (fun _ => false) [] [] 1 2
          ⟨[], 0, 0, 0, 0, 0, 0, false⟩).cal :=
  C5_amended_sync_idempotent 1 60 (fun _ => false) [] [] 1 2
    ⟨[], 0, 0, 0, 0, 0, 0, false⟩
    ⟨by simp, by intro ev h; cases h⟩
    (by set_option maxRecDepth 100000 in decide)

end Sogod
